import Mathlib

/-!
A verification development for the character-grid layout engine of `src/lib.rs`.

The Rust code is shallowly embedded: `ScreenBuffer` and its drawing
primitives become pure Lean functions on a `ScreenBuffer` structure, and the
`Ui` / `UiGrid` compositors become state-passing functions over a `Ui`
structure.  Closures handed to `vertical` / `horizontal` / `frame` /
`grid`-cells are represented as programs of an `Op` language whose
constructors cover exactly the public compositor operations; running a
program twice replays the same operation sequence, which models the
`impl Fn` population closures of the two-pass grid protocol.

Machine-integer conventions:
* `usize` values are modelled as `Nat`.  Rust's `checked_sub` becomes
  `checkedSub`, `saturating_sub` becomes truncated `Nat` subtraction
  (identical semantics).
* `i64` values are modelled as `Int`.  Where the code's arithmetic can leave
  the i64 range (the sign-stripping negation in `write_i64_right`), the main
  embedding uses release-mode two's-complement wrap-around (`wrap64`) and a
  separate `..._checked` variant returns `none` exactly where a debug build
  panics on overflow.
* Rust's `i64` `/` and `%` truncate towards zero, hence `Int.tdiv` and
  `Int.tmod` below.
-/

/-- Rust's `usize::checked_sub`: `some (a - b)` when `b ≤ a`, `none` on
underflow.  Used by `Ui::advance` for the budget subtraction. -/
def checkedSub (a b : Nat) : Option Nat :=
  if b ≤ a then some (a - b) else none

/-- The character `b'0' + digit` produced by the digit-emission loops of
`write_i64_right` and `write_f64_right`. -/
def digitChar (d : Nat) : Char := Char.ofNat (48 + d)

/-- Two's-complement wrap of an integer into the i64 range, the release-mode
semantics of an overflowing i64 operation. -/
def wrap64 (z : Int) : Int := (z + 2 ^ 63) % 2 ^ 64 - 2 ^ 63

/-- The least i64 value; its negation is the one i64 negation that
overflows. -/
def i64Min : Int := -(2 ^ 63)

/-- The value `v` lies in the i64 range. -/
def i64InRange (v : Int) : Prop := -(2 ^ 63) ≤ v ∧ v < 2 ^ 63

instance (v : Int) : Decidable (i64InRange v) := by
  unfold i64InRange; infer_instance

/-- The `ScreenBuffer` struct: a fixed-size grid of cells stored row-major
(`index(x, y) = y * width + x`).  A cell holds one `char`; the default cell
is a space. -/
structure ScreenBuffer where
  width : Nat
  height : Nat
  cells : List Char
deriving DecidableEq

/-- Well-formedness: the dense cell vector has exactly `width * height`
entries, as guaranteed by `ScreenBuffer::new` and preserved by every write. -/
def ScreenBuffer.Wf (b : ScreenBuffer) : Prop :=
  b.cells.length = b.width * b.height

instance (b : ScreenBuffer) : Decidable b.Wf := by
  unfold ScreenBuffer.Wf; infer_instance

/-- `ScreenBuffer::new(width, height)`: all cells start as blanks. -/
def ScreenBuffer.new (width height : Nat) : ScreenBuffer :=
  { width := width, height := height, cells := List.replicate (width * height) ' ' }

/-- Reading one cell.  Out-of-bounds coordinates read as blank; the Rust API
never reads out of bounds, so this choice only affects how lemmas are
phrased. -/
def ScreenBuffer.cellAt (b : ScreenBuffer) (x y : Nat) : Char :=
  if x < b.width ∧ y < b.height then b.cells.getD (y * b.width + x) ' ' else ' '

/-- `ScreenBuffer::put_char`: a bounds-checked single-cell write; silently a
no-op when `(x, y)` is outside the grid. -/
def ScreenBuffer.put_char (b : ScreenBuffer) (x y : Nat) (ch : Char) : ScreenBuffer :=
  if x ≥ b.width ∨ y ≥ b.height then b
  else { b with cells := b.cells.set (y * b.width + x) ch }

/-- The loop of `ScreenBuffer::write_str`: write characters left-to-right
from column `px`, returning early once the right edge is reached. -/
def ScreenBuffer.writeStrGo (y : Nat) : ScreenBuffer → Nat → List Char → ScreenBuffer
  | b, _, [] => b
  | b, px, ch :: rest =>
      if px ≥ b.width then b
      else ScreenBuffer.writeStrGo y (b.put_char px y ch) (px + 1) rest

/-- `ScreenBuffer::write_str` (text as its character sequence): returns
immediately when `y` is out of bounds, otherwise writes until the text ends
or the right edge is reached. -/
def ScreenBuffer.write_str (b : ScreenBuffer) (x y : Nat) (text : List Char) : ScreenBuffer :=
  if y ≥ b.height then b else ScreenBuffer.writeStrGo y b x text

/-- The field-blanking loop `for i in 0..width { put_char(x + i, y, ' ') }`
shared by `write_i64_right`, `write_f64_right`, `label` and `label_align`. -/
def ScreenBuffer.blankRow (b : ScreenBuffer) (x y w : Nat) : ScreenBuffer :=
  (List.range w).foldl (fun acc i => acc.put_char (x + i) y ' ') b

/-- The digit-emission loop `while v > 0 && pos > x { pos -= 1; put_char(pos,
y, '0' + v % 10); v /= 10 }`, as it appears both in `write_i64_right` and in
the integer-part phase of `write_f64_right`.  The value is a `Nat` since the
loop body only runs while it is strictly positive; the recursion is on `pos`,
which the loop decrements on every iteration. -/
def ScreenBuffer.digitLoop : ScreenBuffer → Nat → Nat → Nat → Nat → ScreenBuffer × Nat
  | b, _, 0, _, _ => (b, 0)
  | b, v, pos + 1, x, y =>
      if 0 < v ∧ x < pos + 1 then
        ScreenBuffer.digitLoop (b.put_char pos y (digitChar (v % 10))) (v / 10) pos x y
      else (b, pos + 1)

/-- `ScreenBuffer::write_i64_right` under release-mode semantics: blank the
field, then render `value` right-justified.  The sign-stripping `value =
-value` wraps for `value = i64::MIN` (yielding a still-negative value, so the
digit loop is skipped and only the sign is placed). -/
def ScreenBuffer.write_i64_right (b : ScreenBuffer) (x y : Nat) (value : Int) (width : Nat) :
    ScreenBuffer :=
  if y ≥ b.height then b
  else
    let b1 := b.blankRow x y width
    if value = 0 then (if 0 < width then b1.put_char (x + width - 1) y '0' else b1)
    else
      let negative := value < 0
      let value1 := if negative then wrap64 (-value) else value
      let r := b1.digitLoop value1.toNat (x + width) x y
      if negative ∧ x < r.2 then r.1.put_char (r.2 - 1) y '-' else r.1

/-- `ScreenBuffer::write_i64_right` under debug-build semantics: `none`
models the overflow panic of the sign-stripping negation, which fires exactly
for `value = i64::MIN` (for i64 inputs).  All other paths agree with the
release-mode embedding. -/
def ScreenBuffer.write_i64_right_checked (b : ScreenBuffer) (x y : Nat) (value : Int)
    (width : Nat) : Option ScreenBuffer :=
  if y ≥ b.height then some b
  else
    let b1 := b.blankRow x y width
    if value = 0 then some (if 0 < width then b1.put_char (x + width - 1) y '0' else b1)
    else
      let negative := value < 0
      if negative ∧ ¬(-value < 2 ^ 63) then none
      else
        let value1 := if negative then -value else value
        let r := b1.digitLoop value1.toNat (x + width) x y
        some (if negative ∧ x < r.2 then r.1.put_char (r.2 - 1) y '-' else r.1)

/-- The fractional-digit loop of `write_f64_right`: runs `precision` times,
but `return`s out of the whole function once the cursor reaches the field's
left edge.  The third component of the result records that early return. -/
def ScreenBuffer.fracLoop (x y : Nat) : ScreenBuffer → Nat → Nat → Nat → ScreenBuffer × Nat × Bool
  | b, _, pos, 0 => (b, pos, false)
  | b, fract, pos, n + 1 =>
      if pos ≤ x then (b, pos, true)
      else
        ScreenBuffer.fracLoop x y (b.put_char (pos - 1) y (digitChar (fract % 10)))
          (fract / 10) (pos - 1) n

/-- The tail of `write_f64_right` after the fractional loop finished without
early return (`pos2` is the cursor the fractional loop left behind): decimal
point, integer digits (a lone '0' for a zero integer part), then the sign. -/
def ScreenBuffer.f64Tail (b2 : ScreenBuffer) (pos2 x y : Nat) (int_part : Int)
    (precision : Nat) : ScreenBuffer :=
  let s3 := if 0 < precision ∧ x < pos2 then (b2.put_char (pos2 - 1) y '.', pos2 - 1)
            else (b2, pos2)
  let v := int_part.natAbs
  let s4 := if v = 0 ∧ x < s3.2 then (s3.1.put_char (s3.2 - 1) y '0', s3.2 - 1)
            else s3.1.digitLoop v s3.2 x y
  if int_part < 0 ∧ x < s4.2 then s4.1.put_char (s4.2 - 1) y '-' else s4.1

/-- The integer core of `ScreenBuffer::write_f64_right`.  The only floating
point step of the source, `scaled = (value * 10^precision).round()`, is a
fixed function of `(value, precision)`; this embedding takes its i64 result
`scaled` as the argument and performs the remaining (purely integral)
rendering exactly as the source does: fractional digits right-to-left, then
the decimal point, then the integer digits, then the sign, truncating
silently at the field's left edge. -/
def ScreenBuffer.write_f64_right_scaled (b : ScreenBuffer) (x y : Nat) (scaled : Int)
    (width precision : Nat) : ScreenBuffer :=
  if y ≥ b.height then b
  else
    let scale : Int := 10 ^ precision
    let int_part := Int.tdiv scaled scale
    let fract_part := (Int.tmod scaled scale).natAbs
    let b1 := b.blankRow x y width
    match ScreenBuffer.fracLoop x y b1 fract_part (x + width) precision with
    | (b2, _, true) => b2
    | (b2, pos2, false) => b2.f64Tail pos2 x y int_part precision

/-- The loop of `ScreenBuffer::draw_hline`.  Note the source's early-exit
test compares `x + 1` (not `x + i`) against the width, so it is
loop-invariant: either the whole stroke is suppressed or every cell goes
through `put_char`'s own clipping. -/
def ScreenBuffer.hlineGo (x y : Nat) (ch : Char) : ScreenBuffer → Nat → Nat → ScreenBuffer
  | b, _, 0 => b
  | b, i, n + 1 =>
      if x + 1 ≥ b.width then b
      else ScreenBuffer.hlineGo x y ch (b.put_char (x + i) y ch) (i + 1) n

/-- `ScreenBuffer::draw_hline(x, y, w, ch)`. -/
def ScreenBuffer.draw_hline (b : ScreenBuffer) (x y w : Nat) (ch : Char) : ScreenBuffer :=
  ScreenBuffer.hlineGo x y ch b 0 w

/-- The loop of `ScreenBuffer::draw_vline`.  The source's early-exit test
compares `y + 1` against `self.width` (not the height), again
loop-invariantly. -/
def ScreenBuffer.vlineGo (x y : Nat) (ch : Char) : ScreenBuffer → Nat → Nat → ScreenBuffer
  | b, _, 0 => b
  | b, i, n + 1 =>
      if y + 1 ≥ b.width then b
      else ScreenBuffer.vlineGo x y ch (b.put_char x (y + i) ch) (i + 1) n

/-- `ScreenBuffer::draw_vline(x, y, h, ch)`. -/
def ScreenBuffer.draw_vline (b : ScreenBuffer) (x y h : Nat) (ch : Char) : ScreenBuffer :=
  ScreenBuffer.vlineGo x y ch b 0 h

/-- `ScreenBuffer::draw_frame` with `Nat` (truncating) index arithmetic, the
shape the release build computes for the in-range inputs (`w ≥ 2`, `h ≥ 2`,
and for `w < 2` the corner positions `x + w - 1` when `x + w ≥ 1`).  The
debug-build overflow checks on the four subtractions live in
`draw_frame_checked` below. -/
def ScreenBuffer.draw_frame (b : ScreenBuffer) (x y w h : Nat) : ScreenBuffer :=
  let b1 := b.put_char x y '┌'
  let b2 := b1.put_char (x + w - 1) y '┐'
  let b3 := b2.put_char x (y + h - 1) '└'
  let b4 := b3.put_char (x + w - 1) (y + h - 1) '┘'
  let b5 := b4.draw_hline (x + 1) y (w - 2) '-'
  let b6 := b5.draw_hline (x + 1) (y + h - 1) (w - 2) '-'
  let b7 := b6.draw_vline x (y + 1) (h - 2) '|'
  b7.draw_vline (x + w - 1) (y + 1) (h - 2) '|'

/-- `ScreenBuffer::draw_frame` under debug-build semantics: each of the four
`usize` subtractions (`x + w - 1`, `y + h - 1`, `w - 2`, `h - 2`) is overflow
checked, and `none` models the panic. -/
def ScreenBuffer.draw_frame_checked (b : ScreenBuffer) (x y w h : Nat) : Option ScreenBuffer :=
  match checkedSub (x + w) 1, checkedSub (y + h) 1, checkedSub w 2, checkedSub h 2 with
  | some xr, some yb, some wi, some hi =>
      some (((((b.put_char x y '┌').put_char xr y '┐').put_char x yb '└').put_char xr yb
        '┘').draw_hline (x + 1) y wi '-' |>.draw_hline (x + 1) yb wi '-'
        |>.draw_vline x (y + 1) hi '|' |>.draw_vline xr (y + 1) hi '|')
  | _, _, _, _ => none

/-- The `LayoutKind` enum: main-axis direction of a compositor scope. -/
inductive LayoutKind where
  | Vertical
  | Horizontal
deriving DecidableEq

/-- The `Align` enum. -/
inductive Align where
  | Left
  | Right
deriving DecidableEq

/-- The `BorderKind` enum. -/
inductive BorderKind where
  | Full
  | No
deriving DecidableEq

/-- The `StretchHint` enum. -/
inductive StretchHint where
  | Full
  | Compact
deriving DecidableEq

/-- The `Ui` compositor state.  The Rust struct borrows the draw target; here
the buffer is carried as a field and threaded explicitly, which models the
exclusive `&mut` borrow. -/
structure Ui where
  buf : ScreenBuffer
  cursor_x : Nat
  cursor_y : Nat
  max_x : Nat
  max_y : Nat
  available_x : Option Nat
  available_y : Option Nat
  used_x : Nat
  used_y : Nat
  layout : LayoutKind
  spacing : Nat
  draw : Bool
deriving DecidableEq

/-- `Ui::new`: a root scope at `(x, y)`, vertical, unbounded budget,
drawing enabled. -/
def Ui.new (buf : ScreenBuffer) (x y : Nat) : Ui :=
  { buf := buf, cursor_x := x, cursor_y := y, max_x := x, max_y := y,
    available_x := none, available_y := none, used_x := 0, used_y := 0,
    layout := .Vertical, spacing := 0, draw := true }

/-- Replace the buffer, leaving all layout state alone (the parent's view of
the shared `&mut` buffer after a child scope wrote through it). -/
def Ui.setBuf (u : Ui) (b : ScreenBuffer) : Ui := { u with buf := b }

/-- `Ui::advance(w, h)`: raise the high-water extents from the current
cursor, then move the cursor along the main axis by the footprint plus
spacing, tracking cross-axis used size and performing the checked budget
subtraction on the main axis. -/
def Ui.advance (u : Ui) (w h : Nat) : Ui :=
  let u1 := { u with max_x := max u.max_x (u.cursor_x + w),
                     max_y := max u.max_y (u.cursor_y + h) }
  match u1.layout with
  | .Vertical =>
      { u1 with used_x := max u1.used_x w,
                available_y := u1.available_y.bind (fun a => checkedSub a h),
                cursor_y := u1.cursor_y + h + u1.spacing }
  | .Horizontal =>
      { u1 with used_y := max u1.used_y h,
                available_x := u1.available_x.bind (fun a => checkedSub a w),
                cursor_x := u1.cursor_x + w + u1.spacing }

/-- `Ui::space(amount)`: advance the main axis with no drawing. -/
def Ui.space (u : Ui) (amount : Nat) : Ui :=
  match u.layout with
  | .Vertical => u.advance 0 amount
  | .Horizontal => u.advance amount 0

/-- `Ui::draw_frame`: the `+`/`-`/`|` border strokes used by `frame`,
suppressed when drawing is disabled.  `Nat` subtraction stands in for the
release-mode index arithmetic of `y + h - 1` / `x + w - 1`; `frame` only
invokes it with the box containing at least the padding-inset origin. -/
def Ui.draw_frame (u : Ui) (x y w h : Nat) : Ui :=
  if u.draw = false then u
  else
    let b1 := (List.range w).foldl
      (fun b dx => (b.put_char (x + dx) y '-').put_char (x + dx) (y + h - 1) '-') u.buf
    let b2 := (List.range h).foldl
      (fun b dy => (b.put_char x (y + dy) '|').put_char (x + w - 1) (y + dy) '|') b1
    let b3 := (((b2.put_char x y '+').put_char (x + w - 1) y '+').put_char x (y + h - 1)
      '+').put_char (x + w - 1) (y + h - 1) '+'
    u.setBuf b3

/-- `Ui::label(text, width, align)`: a one-row leaf.  The effective field
width is the explicit width or the text's length; the text is truncated to
the field; the field at the cursor is blanked; the (possibly truncated) text
is placed flush left or right inside it; then the scope advances by
`(w, 1)`. -/
def Ui.label (u : Ui) (text : List Char) (width : Option Nat) (align : Align) : Ui :=
  let len := text.length
  let w := width.getD len
  let visible_len := min len w
  let slice := if len > w then text.take w else text
  let start_x :=
    match align with
    | .Left => u.cursor_x
    | .Right => u.cursor_x + w - visible_len
  let u1 :=
    if u.draw then
      u.setBuf ((u.buf.blankRow u.cursor_x u.cursor_y w).write_str start_x u.cursor_y slice)
    else u
  u1.advance w 1

/-- The outer-then-inner start-column computation of `Ui::label_align`. -/
def Ui.labelAlignStart (u : Ui) (w visible_len : Nat) (align_inner align_outer : Align) : Nat :=
  let outer :=
    match u.available_x with
    | some avail_x =>
        match align_outer with
        | .Left => u.cursor_x
        | .Right => u.cursor_x + (avail_x - w)
    | none => u.cursor_x
  match align_inner with
  | .Left => outer
  | .Right => outer + (w - visible_len)

/-- `Ui::label_align(text, width, align_inner, align_outer)`: like `label`,
but the field start is chosen by the outer alignment against the known
x-budget (cursor-flush fallback when unknown) and the text sits inside the
field per the inner alignment.  Note the blanking loop runs at the cursor
(`put_char(cursor_x + i, ...)`), not at the computed field start.  The leaf
also raises `used_x` directly before advancing. -/
def Ui.label_align (u : Ui) (text : List Char) (width : Option Nat)
    (align_inner align_outer : Align) : Ui :=
  let len := text.length
  let w := width.getD len
  let visible_len := min len w
  let slice := if len > w then text.take w else text
  let start_x := u.labelAlignStart w visible_len align_inner align_outer
  let u1 :=
    if u.draw then
      u.setBuf ((u.buf.blankRow u.cursor_x u.cursor_y w).write_str start_x u.cursor_y slice)
    else u
  let u2 := { u1 with used_x := max u1.used_x w }
  u2.advance w 1

/-- `Ui::number_i64(value, width)`: numeric leaf over `write_i64_right`. -/
def Ui.number_i64 (u : Ui) (value : Int) (width : Nat) : Ui :=
  let u1 :=
    if u.draw then u.setBuf (u.buf.write_i64_right u.cursor_x u.cursor_y value width) else u
  u1.advance width 1

/-- `Ui::number_f64` over the integer core `write_f64_right_scaled`; `scaled`
stands for the source's `(value * 10^precision).round() as i64`. -/
def Ui.number_f64 (u : Ui) (scaled : Int) (precision width : Nat) : Ui :=
  let u1 :=
    if u.draw then
      u.setBuf (u.buf.write_f64_right_scaled u.cursor_x u.cursor_y scaled width precision)
    else u
  u1.advance width 1

/-- The child scope constructed by `Ui::child`: seeded at the parent's
cursor, inheriting budget, draw flag and buffer, with fresh extents and used
sizes. -/
def Ui.mkChild (u : Ui) (layout : LayoutKind) (spacing : Nat) : Ui :=
  { buf := u.buf, cursor_x := u.cursor_x, cursor_y := u.cursor_y,
    max_x := u.cursor_x, max_y := u.cursor_y,
    available_x := u.available_x, available_y := u.available_y,
    used_x := 0, used_y := 0, layout := layout, spacing := spacing, draw := u.draw }

/-- The aggregate-size rule at the end of `Ui::child`: the child's main axis
contributes its extent travel (`max - start`), the cross axis its "used"
tracker. -/
def Ui.childSize (c : Ui) (start_x start_y : Nat) : Nat × Nat :=
  let used_w :=
    match c.layout with
    | .Vertical => c.used_x
    | .Horizontal => c.max_x - start_x
  let used_h :=
    match c.layout with
    | .Vertical => c.max_y - start_y
    | .Horizontal => c.used_y
  (used_w, used_h)

/-- The `UiGrid` struct (the `parent` borrow is threaded separately; `buf`
models the access to `parent.buf`). -/
structure UiGridState where
  buf : ScreenBuffer
  start_x : Nat
  start_y : Nat
  cols : Nat
  spacing : Nat
  spacing_inner : Nat
  cell_idx : Nat
  cursor_x : Nat
  cursor_y : Nat
  max_col_width : List Nat
  max_row_height : List Nat
  draw : Bool
deriving DecidableEq

mutual
/-- Programs over the public compositor operations.  A Rust closure passed to
`vertical` / `horizontal` / `frame` is a sequence of such operations; a
closure passed to `grid` is a sequence of `cell` calls, each carrying its own
operation sequence.  For `numberF64` the field `scaled` is the i64 result of
the source's float prescaling, cf. `write_f64_right_scaled`. -/
inductive Op where
  | space (amount : Nat)
  | label (text : List Char) (width : Option Nat) (align : Align)
  | labelAlign (text : List Char) (width : Option Nat) (align_inner align_outer : Align)
  | numberI64 (value : Int) (width : Nat)
  | numberF64 (scaled : Int) (precision width : Nat)
  | vertical (ops : Ops)
  | horizontal (ops : Ops)
  | frame (padding : Nat) (border : BorderKind) (stretch : StretchHint) (ops : Ops)
  | grid (cols spacing : Nat) (cells : Cells)
/-- A sequence of operations (the body of one closure). -/
inductive Ops where
  | nil
  | cons (o : Op) (os : Ops)
/-- A sequence of `cell(..)` calls (the body of one grid-population
closure). -/
inductive Cells where
  | nil
  | cons (c : Ops) (cs : Cells)
end

/-- The fold at the end of `Ui::child`: take back the buffer the child wrote
through and advance by the child's aggregate size. -/
def Ui.childClose (u : Ui) (start_x start_y : Nat) (c : Ui) : Ui :=
  let s := c.childSize start_x start_y
  (u.setBuf c.buf).advance s.1 s.2

/-- The child scope constructed by `Ui::frame`: inset by the padding, with
each axis budget reduced by `2 * padding` and collapsed to unbounded when
nothing positive remains. -/
def Ui.frameChild (u : Ui) (padding : Nat) : Ui :=
  let avail_x :=
    match u.available_x with
    | some x => if x - 2 * padding > 0 then some (x - 2 * padding) else none
    | none => none
  let avail_y :=
    match u.available_y with
    | some y => if y - 2 * padding > 0 then some (y - 2 * padding) else none
    | none => none
  { buf := u.buf, cursor_x := u.cursor_x + padding, cursor_y := u.cursor_y + padding,
    max_x := u.cursor_x + padding, max_y := u.cursor_y + padding,
    available_x := avail_x, available_y := avail_y, used_x := 0, used_y := 0,
    layout := .Vertical, spacing := u.spacing, draw := u.draw }

/-- The tail of `Ui::frame` after the closure ran (lines 493-509): content
box from the child's extents plus padding, raised to the parent's budget
under `StretchHint::Full`, bordered when requested, folded into the parent
by one advance. -/
def Ui.frameClose (u : Ui) (padding : Nat) (border : BorderKind) (stretch : StretchHint)
    (c : Ui) : Ui :=
  let start_x := u.cursor_x
  let start_y := u.cursor_y
  let used_w := c.max_x - start_x + padding
  let used_h := c.max_y - start_y + padding
  let used_w :=
    match stretch with
    | .Full => max used_w (u.available_x.getD 0)
    | .Compact => used_w
  let used_h :=
    match stretch with
    | .Full => max used_h (u.available_y.getD 0)
    | .Compact => used_h
  let u1 := u.setBuf c.buf
  let u2 :=
    match border with
    | .Full => u1.draw_frame start_x start_y used_w used_h
    | .No => u1
  u2.advance used_w used_h

/-- The first `UiGrid` of `Ui::grid`: measurement vectors seeded at zero,
draw disabled. -/
def Ui.gridInit (u : Ui) (cols spacing : Nat) : UiGridState :=
  { buf := u.buf, start_x := u.cursor_x, start_y := u.cursor_y, cols := cols,
    spacing := u.spacing, spacing_inner := spacing, cell_idx := 0,
    cursor_x := 0, cursor_y := 0, max_col_width := List.replicate cols 0,
    max_row_height := [0], draw := false }

/-- The second `UiGrid` of `Ui::grid`: seeded with the vectors measured by
the first pass `t`, drawing on the buffer as `t` left it, draw enabled. -/
def Ui.gridSecond (u : Ui) (cols spacing : Nat) (t : UiGridState) : UiGridState :=
  { buf := t.buf, start_x := u.cursor_x, start_y := u.cursor_y, cols := cols,
    spacing := u.spacing, spacing_inner := spacing, cell_idx := 0,
    cursor_x := 0, cursor_y := 0, max_col_width := t.max_col_width,
    max_row_height := t.max_row_height, draw := true }

/-- The fold at the end of `Ui::grid` (lines 441-445): one advance of the
summed footprint of the draw pass's vectors. -/
def Ui.gridClose (u : Ui) (cols : Nat) (g3 : UiGridState) : Ui :=
  let used_w := g3.max_col_width.sum + g3.spacing_inner * (cols - 1)
  let used_h := g3.max_row_height.sum + g3.spacing_inner * (g3.max_row_height.length - 1)
  (u.setBuf g3.buf).advance used_w used_h

/-- The head of `UiGrid::cell` (lines 218-251): derive row/column from the
running index, resize the measurement vectors, and open a horizontal cell
scope at the prefix-sum offset with the currently known column width and row
height as its budget.  Returns the cell scope together with the cell's
origin and the resized vectors. -/
def UiGridState.cellOpen (g : UiGridState) : Ui × Nat × Nat × Nat × Nat × List Nat × List Nat :=
  let col := g.cell_idx % g.cols
  let row := g.cell_idx / g.cols
  let mcw :=
    if g.max_col_width.length < g.cols then
      g.max_col_width ++ List.replicate (g.cols - g.max_col_width.length) 0
    else g.max_col_width
  let mrh :=
    if g.max_row_height.length ≤ row then
      g.max_row_height ++ List.replicate (row + 1 - g.max_row_height.length) 0
    else g.max_row_height
  let sx := g.start_x + (mcw.take col).sum + col * g.spacing_inner
  let sy := g.start_y + (mrh.take row).sum + row * g.spacing_inner
  let cell_ui : Ui :=
    { buf := g.buf, cursor_x := sx, cursor_y := sy, max_x := sx, max_y := sy,
      available_x := some (mcw.getD col 0), available_y := some (mrh.getD row 0),
      used_x := 0, used_y := 0, layout := .Horizontal, spacing := g.spacing,
      draw := g.draw }
  (cell_ui, col, row, sx, sy, mcw, mrh)

/-- The tail of `UiGrid::cell` (lines 253-259): fold the cell's footprint
into the per-column / per-row maxima and advance the cell index. -/
def UiGridState.cellClose (g : UiGridState) (col row sx sy : Nat) (mcw mrh : List Nat)
    (c : Ui) : UiGridState :=
  let used_w := c.max_x - sx
  let used_h := c.max_y - sy
  { g with buf := c.buf,
           max_col_width := mcw.set col (max (mcw.getD col 0) used_w),
           max_row_height := mrh.set row (max (mrh.getD row 0) used_h),
           cell_idx := g.cell_idx + 1 }

mutual
/-- Run one public compositor operation, the shallow embedding of the
corresponding `Ui` method.  `vertical` / `horizontal` transcribe
`Ui::child`, `frame` transcribes `Ui::frame`, and `grid` transcribes
`Ui::grid`: a measure pass with zeroed vectors and drawing off, a draw pass
seeded with the measured vectors, then one advance of the summed
footprint. -/
def exec : Op → Ui → Ui
  | .space amount, u => u.space amount
  | .label text width align, u => u.label text width align
  | .labelAlign text width ai ao, u => u.label_align text width ai ao
  | .numberI64 value width, u => u.number_i64 value width
  | .numberF64 scaled precision width, u => u.number_f64 scaled precision width
  | .vertical ops, u =>
      u.childClose u.cursor_x u.cursor_y (execList ops (u.mkChild .Vertical u.spacing))
  | .horizontal ops, u =>
      u.childClose u.cursor_x u.cursor_y (execList ops (u.mkChild .Horizontal u.spacing))
  | .frame padding border stretch ops, u =>
      u.frameClose padding border stretch (execList ops (u.frameChild padding))
  | .grid cols spacing cells, u =>
      u.gridClose cols
        (execCells cells (u.gridSecond cols spacing (execCells cells (u.gridInit cols spacing))))
/-- Run an operation sequence left to right. -/
def execList : Ops → Ui → Ui
  | .nil, u => u
  | .cons o os, u => execList os (exec o u)
/-- Run a sequence of `UiGrid::cell` calls. -/
def execCells : Cells → UiGridState → UiGridState
  | .nil, g => g
  | .cons ops cs, g =>
      let op := g.cellOpen
      execCells cs (g.cellClose op.2.1 op.2.2.1 op.2.2.2.1 op.2.2.2.2.1 op.2.2.2.2.2.1
        op.2.2.2.2.2.2 (execList ops op.1))
end

/-- The measure pass of `Ui::grid` in isolation: the first `UiGrid` (vectors
seeded at zero, draw disabled) after the population program has run. -/
def Ui.gridMeasure (u : Ui) (cols spacing : Nat) (cells : Cells) : UiGridState :=
  execCells cells (u.gridInit cols spacing)

/-- The draw pass of `Ui::grid` in isolation: the second `UiGrid`, seeded
with the measured vectors and the measure pass's buffer, draw enabled. -/
def Ui.gridDraw (u : Ui) (cols spacing : Nat) (cells : Cells) : UiGridState :=
  execCells cells (u.gridSecond cols spacing (u.gridMeasure cols spacing cells))

mutual
/-- No `grid` operation occurs anywhere in the operation tree. -/
def Op.gridFree : Op → Bool
  | .space _ => true
  | .label _ _ _ => true
  | .labelAlign _ _ _ _ => true
  | .numberI64 _ _ => true
  | .numberF64 _ _ _ => true
  | .vertical ops => ops.gridFree
  | .horizontal ops => ops.gridFree
  | .frame _ _ _ ops => ops.gridFree
  | .grid _ _ _ => false
/-- No `grid` operation occurs in the sequence. -/
def Ops.gridFree : Ops → Bool
  | .nil => true
  | .cons o os => o.gridFree && os.gridFree
end

/-- No `grid` operation occurs in any cell of the sequence. -/
def Cells.gridFree : Cells → Bool
  | .nil => true
  | .cons c cs => c.gridFree && cs.gridFree

/-- The leaf operations: `label`, `label_align`, `number_i64`, `number_f64`.
Every leaf occupies one row and advances the main axis by its field width. -/
def Op.isLeaf : Op → Bool
  | .label _ _ _ => true
  | .labelAlign _ _ _ _ => true
  | .numberI64 _ _ => true
  | .numberF64 _ _ _ => true
  | _ => false

/-- A leaf's field width: the explicit width, or the text's natural length. -/
def Op.leafW : Op → Nat
  | .label text width _ => width.getD text.length
  | .labelAlign text width _ _ => width.getD text.length
  | .numberI64 _ width => width
  | .numberF64 _ _ width => width
  | _ => 0

/-- A 20 x 5 root scope used by the concrete grid executions below. -/
def demoRoot : Ui := Ui.new (ScreenBuffer.new 20 5) 0 0

/-- The four text cells of natural widths 3, 5, 2, 7, in row-major order, of
the spec's `grid(cols = 2, spacing = 1)` example. -/
def fourLabelCells : Cells :=
  .cons (.cons (.label "abc".toList none .Left) .nil)
    (.cons (.cons (.label "abcde".toList none .Left) .nil)
      (.cons (.cons (.label "ab".toList none .Left) .nil)
        (.cons (.cons (.label "abcdefg".toList none .Left) .nil) .nil)))

/-- A single grid cell holding two consecutive `StretchHint::Full` frames,
each wrapping a one-character label.  During the draw pass the first frame
stretches to the cell's measured budget, so the cell's draw-pass footprint
exceeds its measured footprint. -/
def stretchFrameCell : Ops :=
  .cons (.frame 0 .No .Full (.cons (.label "a".toList none .Left) .nil))
    (.cons (.frame 0 .No .Full (.cons (.label "a".toList none .Left) .nil)) .nil)

/-- A population program consisting of the single cell `stretchFrameCell`. -/
def stretchFrameCells : Cells := .cons stretchFrameCell .nil

/-- A population program whose single cell contains a nested one-column grid
holding a one-character label. -/
def nestedGridCells : Cells :=
  .cons (.cons (.grid 1 0 (.cons (.cons (.label "a".toList none .Left) .nil) .nil)) .nil) .nil

/-- A 3 x 1 root scope for the nested-grid measure-pass execution. -/
def smallRoot : Ui := Ui.new (ScreenBuffer.new 3 1) 0 0

/-- A 10 x 1 buffer whose cells all hold 'Z', to make blanking visible. -/
def zBuf : ScreenBuffer := { width := 10, height := 1, cells := List.replicate 10 'Z' }

/-- A scope over `zBuf` at the origin with a known x-budget of 10, drawing
enabled — the configuration of the spec's `label_align` right/right
example. -/
def zUi : Ui :=
  { buf := zBuf, cursor_x := 0, cursor_y := 0, max_x := 0, max_y := 0,
    available_x := some 10, available_y := none, used_x := 0, used_y := 0,
    layout := .Vertical, spacing := 0, draw := true }

/-- A vertical scope with a finite y-budget of 2 and no known x-budget, used
by the C1 witness. -/
def budgetUi : Ui :=
  { buf := ScreenBuffer.new 4 4, cursor_x := 0, cursor_y := 0, max_x := 0, max_y := 0,
    available_x := none, available_y := some 2, used_x := 0, used_y := 0,
    layout := .Vertical, spacing := 0, draw := true }

/-! ### Basic buffer lemmas -/

theorem ScreenBuffer.put_char_width (b : ScreenBuffer) (x y : Nat) (ch : Char) :
    (b.put_char x y ch).width = b.width := by
  unfold ScreenBuffer.put_char; split <;> rfl

theorem ScreenBuffer.put_char_height (b : ScreenBuffer) (x y : Nat) (ch : Char) :
    (b.put_char x y ch).height = b.height := by
  unfold ScreenBuffer.put_char; split <;> rfl

theorem ScreenBuffer.put_char_length (b : ScreenBuffer) (x y : Nat) (ch : Char) :
    (b.put_char x y ch).cells.length = b.cells.length := by
  unfold ScreenBuffer.put_char; split <;> simp

theorem ScreenBuffer.put_char_Wf {b : ScreenBuffer} (h : b.Wf) (x y : Nat) (ch : Char) :
    (b.put_char x y ch).Wf := by
  unfold ScreenBuffer.Wf at *
  rw [ScreenBuffer.put_char_length, ScreenBuffer.put_char_width, ScreenBuffer.put_char_height]
  exact h

theorem rowMajorIndexInj {W cx x cy y : Nat} (hcx : cx < W) (hx : x < W)
    (h : cy * W + cx = y * W + x) : cx = x ∧ cy = y := by
  have e1 : (cy * W + cx) % W = cx := by
    rw [Nat.mul_comm, Nat.add_comm, Nat.add_mul_mod_self_left, Nat.mod_eq_of_lt hcx]
  have e2 : (y * W + x) % W = x := by
    rw [Nat.mul_comm, Nat.add_comm, Nat.add_mul_mod_self_left, Nat.mod_eq_of_lt hx]
  have ecx : cx = x := by rw [← e1, ← e2, h]
  refine ⟨ecx, ?_⟩
  have hW : 0 < W := Nat.lt_of_le_of_lt (Nat.zero_le _) hcx
  have : cy * W = y * W := by omega
  exact Nat.eq_of_mul_eq_mul_right hW this

theorem ScreenBuffer.cellAt_oob (b : ScreenBuffer) {cx cy : Nat}
    (h : ¬(cx < b.width ∧ cy < b.height)) : b.cellAt cx cy = ' ' := by
  unfold ScreenBuffer.cellAt; rw [if_neg h]

theorem rowMajorIndexLt {W H x y : Nat} (hx : x < W) (hy : y < H) :
    y * W + x < W * H := by
  calc y * W + x < y * W + W := by omega
  _ = (y + 1) * W := by ring
  _ ≤ H * W := Nat.mul_le_mul_right _ (by omega)
  _ = W * H := Nat.mul_comm _ _

theorem ScreenBuffer.cellAt_put_char (b : ScreenBuffer) (hwf : b.Wf) (x y cx cy : Nat)
    (ch : Char) :
    (b.put_char x y ch).cellAt cx cy =
      if cx = x ∧ cy = y ∧ x < b.width ∧ y < b.height then ch else b.cellAt cx cy := by
  by_cases hb : x ≥ b.width ∨ y ≥ b.height
  · have hput : b.put_char x y ch = b := by unfold ScreenBuffer.put_char; rw [if_pos hb]
    rw [hput, if_neg]
    rintro ⟨_, _, h3, h4⟩
    omega
  · have hx : x < b.width := by omega
    have hy : y < b.height := by omega
    have hput : b.put_char x y ch = { b with cells := b.cells.set (y * b.width + x) ch } := by
      unfold ScreenBuffer.put_char; rw [if_neg hb]
    by_cases hcb : cx < b.width ∧ cy < b.height
    · have hL : b.cellAt cx cy = b.cells.getD (cy * b.width + cx) ' ' := by
        unfold ScreenBuffer.cellAt; rw [if_pos hcb]
      have hR : (b.put_char x y ch).cellAt cx cy
          = (b.cells.set (y * b.width + x) ch).getD (cy * b.width + cx) ' ' := by
        rw [hput]; unfold ScreenBuffer.cellAt; rw [if_pos hcb]
      rw [hR, hL]
      rw [List.getD_eq_getElem?_getD, List.getD_eq_getElem?_getD, List.getElem?_set]
      by_cases he : y * b.width + x = cy * b.width + cx
      · obtain ⟨e1, e2⟩ := rowMajorIndexInj hcb.1 hx he.symm
        rw [if_pos he, if_pos (by rw [hwf]; exact rowMajorIndexLt hx hy),
          if_pos ⟨e1, e2, hx, hy⟩]
        rfl
      · rw [if_neg he, if_neg (by rintro ⟨e1, e2, _, _⟩; exact he (by rw [e1, e2]))]
    · have h1 : (b.put_char x y ch).cellAt cx cy = ' ' := by
        apply ScreenBuffer.cellAt_oob
        rw [ScreenBuffer.put_char_width, ScreenBuffer.put_char_height]
        exact hcb
      have h2 : b.cellAt cx cy = ' ' := ScreenBuffer.cellAt_oob b hcb
      rw [h1, if_neg, h2]
      rintro ⟨e1, e2, _, _⟩
      exact hcb ⟨by omega, by omega⟩

theorem ScreenBuffer.eq_of_cellAt {b b' : ScreenBuffer} (hwf : b.Wf) (hwf' : b'.Wf)
    (hw : b.width = b'.width) (hh : b.height = b'.height)
    (hc : ∀ cx cy, cx < b.width → cy < b.height → b.cellAt cx cy = b'.cellAt cx cy) :
    b = b' := by
  have hlen : b.cells.length = b'.cells.length := by
    unfold ScreenBuffer.Wf at hwf hwf'
    rw [hwf, hwf', hw, hh]
  have hcells : b.cells = b'.cells := by
    apply List.ext_getElem hlen
    intro n h1 h2
    have hn : n < b.width * b.height := by
      unfold ScreenBuffer.Wf at hwf; rw [← hwf]; exact h1
    have hW : 0 < b.width := by
      rcases Nat.eq_zero_or_pos b.width with h | h
      · rw [h] at hn; simp at hn
      · exact h
    have hcx : n % b.width < b.width := Nat.mod_lt _ hW
    have hcy : n / b.width < b.height := by
      rw [Nat.div_lt_iff_lt_mul hW, Nat.mul_comm]; exact hn
    have hidx : n / b.width * b.width + n % b.width = n := by
      rw [Nat.mul_comm]; exact Nat.div_add_mod n b.width
    have hcell := hc (n % b.width) (n / b.width) hcx hcy
    unfold ScreenBuffer.cellAt at hcell
    rw [if_pos ⟨hcx, hcy⟩, if_pos ⟨by rw [← hw]; exact hcx, by rw [← hh]; exact hcy⟩] at hcell
    rw [hidx, ← hw] at hcell
    rw [hidx] at hcell
    rw [List.getD_eq_getElem?_getD, List.getD_eq_getElem?_getD,
      List.getElem?_eq_getElem h1, List.getElem?_eq_getElem h2] at hcell
    simpa using hcell
  obtain ⟨W, H, cells⟩ := b
  obtain ⟨W', H', cells'⟩ := b'
  simp only at hw hh hcells
  rw [hw, hh, hcells]

theorem ScreenBuffer.blankRow_zero (b : ScreenBuffer) (x y : Nat) : b.blankRow x y 0 = b := rfl

theorem ScreenBuffer.blankRow_succ (b : ScreenBuffer) (x y w : Nat) :
    b.blankRow x y (w + 1) = (b.blankRow x y w).put_char (x + w) y ' ' := by
  unfold ScreenBuffer.blankRow; rw [List.range_succ, List.foldl_append]; rfl

theorem ScreenBuffer.blankRow_width (b : ScreenBuffer) (x y w : Nat) :
    (b.blankRow x y w).width = b.width := by
  induction w with
  | zero => rfl
  | succ n ih => rw [ScreenBuffer.blankRow_succ, ScreenBuffer.put_char_width, ih]

theorem ScreenBuffer.blankRow_height (b : ScreenBuffer) (x y w : Nat) :
    (b.blankRow x y w).height = b.height := by
  induction w with
  | zero => rfl
  | succ n ih => rw [ScreenBuffer.blankRow_succ, ScreenBuffer.put_char_height, ih]

theorem ScreenBuffer.blankRow_Wf {b : ScreenBuffer} (h : b.Wf) (x y w : Nat) :
    (b.blankRow x y w).Wf := by
  induction w with
  | zero => exact h
  | succ n ih => rw [ScreenBuffer.blankRow_succ]; exact ScreenBuffer.put_char_Wf ih _ _ _

theorem ScreenBuffer.cellAt_blankRow (b : ScreenBuffer) (hwf : b.Wf) (x y w cx cy : Nat) :
    (b.blankRow x y w).cellAt cx cy =
      if cy = y ∧ x ≤ cx ∧ cx < x + w then ' ' else b.cellAt cx cy := by
  induction w with
  | zero =>
      rw [ScreenBuffer.blankRow_zero, if_neg]
      rintro ⟨_, h2, h3⟩; omega
  | succ n ih =>
      rw [ScreenBuffer.blankRow_succ,
        ScreenBuffer.cellAt_put_char _ (ScreenBuffer.blankRow_Wf hwf x y n),
        ScreenBuffer.blankRow_width, ScreenBuffer.blankRow_height, ih]
      by_cases hmain : cy = y ∧ x ≤ cx ∧ cx < x + (n + 1)
      · rw [if_pos hmain]
        by_cases hlast : cx = x + n ∧ cy = y ∧ x + n < b.width ∧ y < b.height
        · rw [if_pos hlast]
        · rw [if_neg hlast]
          by_cases hin : cy = y ∧ x ≤ cx ∧ cx < x + n
          · rw [if_pos hin]
          · rw [if_neg hin]
            exact ScreenBuffer.cellAt_oob b
              (fun hcb => hlast ⟨by omega, hmain.1, by omega, by omega⟩)
      · rw [if_neg hmain,
          if_neg (fun h => hmain ⟨h.2.1, by omega, by omega⟩),
          if_neg (fun h => hmain ⟨h.1, h.2.1, by omega⟩)]

theorem ScreenBuffer.writeStrGo_width (y : Nat) (t : List Char) :
    ∀ (b : ScreenBuffer) (px : Nat), (ScreenBuffer.writeStrGo y b px t).width = b.width := by
  induction t with
  | nil => intro b px; rfl
  | cons c rest ih =>
      intro b px
      simp only [ScreenBuffer.writeStrGo]
      split
      · rfl
      · rw [ih, ScreenBuffer.put_char_width]

theorem ScreenBuffer.writeStrGo_height (y : Nat) (t : List Char) :
    ∀ (b : ScreenBuffer) (px : Nat), (ScreenBuffer.writeStrGo y b px t).height = b.height := by
  induction t with
  | nil => intro b px; rfl
  | cons c rest ih =>
      intro b px
      simp only [ScreenBuffer.writeStrGo]
      split
      · rfl
      · rw [ih, ScreenBuffer.put_char_height]

theorem ScreenBuffer.writeStrGo_Wf (y : Nat) (t : List Char) :
    ∀ (b : ScreenBuffer) (px : Nat), b.Wf → (ScreenBuffer.writeStrGo y b px t).Wf := by
  induction t with
  | nil => intro b px h; exact h
  | cons c rest ih =>
      intro b px h
      simp only [ScreenBuffer.writeStrGo]
      split
      · exact h
      · exact ih _ _ (ScreenBuffer.put_char_Wf h _ _ _)

theorem ScreenBuffer.cellAt_writeStrGo (y cx cy : Nat) (t : List Char) :
    ∀ (b : ScreenBuffer) (px : Nat), b.Wf →
      (ScreenBuffer.writeStrGo y b px t).cellAt cx cy =
        if cy = y ∧ px ≤ cx ∧ cx < px + t.length ∧ cx < b.width ∧ y < b.height then
          t.getD (cx - px) ' '
        else b.cellAt cx cy := by
  induction t with
  | nil =>
      intro b px _
      simp only [ScreenBuffer.writeStrGo, List.length_nil]
      rw [if_neg]
      rintro ⟨_, h2, h3, _, _⟩; omega
  | cons c rest ih =>
      intro b px hwf
      simp only [ScreenBuffer.writeStrGo, List.length_cons]
      by_cases hpx : px ≥ b.width
      · rw [if_pos hpx, if_neg]
        rintro ⟨_, h2, _, h4, _⟩; omega
      · rw [if_neg hpx,
          ih (b.put_char px y c) (px + 1) (ScreenBuffer.put_char_Wf hwf _ _ _),
          ScreenBuffer.put_char_width, ScreenBuffer.put_char_height,
          ScreenBuffer.cellAt_put_char b hwf]
        by_cases hc1 : cy = y ∧ px ≤ cx ∧ cx < px + (rest.length + 1) ∧ cx < b.width ∧
            y < b.height
        · rw [if_pos hc1]
          by_cases hcx : cx = px
          · rw [if_neg (by rintro ⟨_, h2, _, _, _⟩; omega),
              if_pos ⟨hcx, hc1.1, by omega, hc1.2.2.2.2⟩]
            rw [hcx, Nat.sub_self, List.getD_cons_zero]
          · rw [if_pos ⟨hc1.1, by omega, by omega, hc1.2.2.2.1, hc1.2.2.2.2⟩]
            have hde : cx - px = (cx - (px + 1)) + 1 := by omega
            rw [hde, List.getD_cons_succ]
        · rw [if_neg hc1, if_neg (fun h => hc1 ⟨h.1, by omega, by omega, h.2.2.2.1, h.2.2.2.2⟩),
            if_neg (fun h => hc1 ⟨h.2.1, by omega, by omega, by omega, h.2.2.2⟩)]

theorem ScreenBuffer.write_str_width (b : ScreenBuffer) (x y : Nat) (t : List Char) :
    (b.write_str x y t).width = b.width := by
  unfold ScreenBuffer.write_str
  split
  · rfl
  · rw [ScreenBuffer.writeStrGo_width]

theorem ScreenBuffer.write_str_height (b : ScreenBuffer) (x y : Nat) (t : List Char) :
    (b.write_str x y t).height = b.height := by
  unfold ScreenBuffer.write_str
  split
  · rfl
  · rw [ScreenBuffer.writeStrGo_height]

theorem ScreenBuffer.write_str_Wf {b : ScreenBuffer} (h : b.Wf) (x y : Nat) (t : List Char) :
    (b.write_str x y t).Wf := by
  unfold ScreenBuffer.write_str
  split
  · exact h
  · exact ScreenBuffer.writeStrGo_Wf _ _ _ _ h

theorem ScreenBuffer.cellAt_write_str (b : ScreenBuffer) (hwf : b.Wf) (x y cx cy : Nat)
    (t : List Char) :
    (b.write_str x y t).cellAt cx cy =
      if cy = y ∧ x ≤ cx ∧ cx < x + t.length ∧ cx < b.width ∧ y < b.height then
        t.getD (cx - x) ' '
      else b.cellAt cx cy := by
  unfold ScreenBuffer.write_str
  by_cases hy : y ≥ b.height
  · rw [if_pos hy, if_neg]
    rintro ⟨_, _, _, _, h5⟩; omega
  · rw [if_neg hy, ScreenBuffer.cellAt_writeStrGo y cx cy t b x hwf]

theorem ScreenBuffer.digitLoop_width (pos : Nat) :
    ∀ (b : ScreenBuffer) (v x y : Nat), (b.digitLoop v pos x y).1.width = b.width := by
  induction pos with
  | zero => intro b v x y; rfl
  | succ p ih =>
      intro b v x y
      simp only [ScreenBuffer.digitLoop]
      split
      · rw [ih, ScreenBuffer.put_char_width]
      · rfl

theorem ScreenBuffer.digitLoop_height (pos : Nat) :
    ∀ (b : ScreenBuffer) (v x y : Nat), (b.digitLoop v pos x y).1.height = b.height := by
  induction pos with
  | zero => intro b v x y; rfl
  | succ p ih =>
      intro b v x y
      simp only [ScreenBuffer.digitLoop]
      split
      · rw [ih, ScreenBuffer.put_char_height]
      · rfl

theorem ScreenBuffer.digitLoop_Wf (pos : Nat) :
    ∀ (b : ScreenBuffer) (v x y : Nat), b.Wf → (b.digitLoop v pos x y).1.Wf := by
  induction pos with
  | zero => intro b v x y h; exact h
  | succ p ih =>
      intro b v x y h
      simp only [ScreenBuffer.digitLoop]
      split
      · exact ih _ _ _ _ (ScreenBuffer.put_char_Wf h _ _ _)
      · exact h

theorem ScreenBuffer.digitLoop_pos_le (pos : Nat) :
    ∀ (b : ScreenBuffer) (v x y : Nat), (b.digitLoop v pos x y).2 ≤ pos := by
  induction pos with
  | zero => intro b v x y; exact Nat.le_refl _
  | succ p ih =>
      intro b v x y
      simp only [ScreenBuffer.digitLoop]
      split
      · exact Nat.le_trans (ih _ _ _ _) (Nat.le_succ _)
      · exact Nat.le_refl _

theorem ScreenBuffer.digitLoop_cellAt (pos : Nat) :
    ∀ (b : ScreenBuffer) (v x y cx cy : Nat), b.Wf → (cy ≠ y ∨ cx < x ∨ pos ≤ cx) →
      (b.digitLoop v pos x y).1.cellAt cx cy = b.cellAt cx cy := by
  induction pos with
  | zero => intro b v x y cx cy _ _; rfl
  | succ p ih =>
      intro b v x y cx cy hwf hside
      simp only [ScreenBuffer.digitLoop]
      split
      · next hguard =>
          rw [ih _ _ _ _ _ _ (ScreenBuffer.put_char_Wf hwf _ _ _)
              (by rcases hside with h | h | h
                  · exact Or.inl h
                  · exact Or.inr (Or.inl h)
                  · exact Or.inr (Or.inr (by omega))),
            ScreenBuffer.cellAt_put_char b hwf]
          rw [if_neg]
          rintro ⟨e1, e2, _, _⟩
          rcases hside with h | h | h
          · exact h e2
          · omega
          · omega
      · rfl

theorem ScreenBuffer.fracLoop_width (x y : Nat) (n : Nat) :
    ∀ (b : ScreenBuffer) (fract pos : Nat),
      (ScreenBuffer.fracLoop x y b fract pos n).1.width = b.width := by
  induction n with
  | zero => intro b fract pos; rfl
  | succ p ih =>
      intro b fract pos
      simp only [ScreenBuffer.fracLoop]
      split
      · rfl
      · rw [ih, ScreenBuffer.put_char_width]

theorem ScreenBuffer.fracLoop_height (x y : Nat) (n : Nat) :
    ∀ (b : ScreenBuffer) (fract pos : Nat),
      (ScreenBuffer.fracLoop x y b fract pos n).1.height = b.height := by
  induction n with
  | zero => intro b fract pos; rfl
  | succ p ih =>
      intro b fract pos
      simp only [ScreenBuffer.fracLoop]
      split
      · rfl
      · rw [ih, ScreenBuffer.put_char_height]

theorem ScreenBuffer.fracLoop_Wf (x y : Nat) (n : Nat) :
    ∀ (b : ScreenBuffer) (fract pos : Nat), b.Wf →
      (ScreenBuffer.fracLoop x y b fract pos n).1.Wf := by
  induction n with
  | zero => intro b fract pos h; exact h
  | succ p ih =>
      intro b fract pos h
      simp only [ScreenBuffer.fracLoop]
      split
      · exact h
      · exact ih _ _ _ (ScreenBuffer.put_char_Wf h _ _ _)

theorem ScreenBuffer.fracLoop_pos_le (x y : Nat) (n : Nat) :
    ∀ (b : ScreenBuffer) (fract pos : Nat),
      (ScreenBuffer.fracLoop x y b fract pos n).2.1 ≤ pos := by
  induction n with
  | zero => intro b fract pos; exact Nat.le_refl _
  | succ p ih =>
      intro b fract pos
      simp only [ScreenBuffer.fracLoop]
      split
      · exact Nat.le_refl _
      · exact Nat.le_trans (ih _ _ _) (by omega)

theorem ScreenBuffer.fracLoop_cellAt (x y : Nat) (n : Nat) :
    ∀ (b : ScreenBuffer) (fract pos cx cy : Nat), b.Wf → (cy ≠ y ∨ cx < x ∨ pos ≤ cx) →
      (ScreenBuffer.fracLoop x y b fract pos n).1.cellAt cx cy = b.cellAt cx cy := by
  induction n with
  | zero => intro b fract pos cx cy _ _; rfl
  | succ p ih =>
      intro b fract pos cx cy hwf hside
      simp only [ScreenBuffer.fracLoop]
      split
      · rfl
      · next hguard =>
          rw [ih _ _ _ _ _ (ScreenBuffer.put_char_Wf hwf _ _ _)
              (by rcases hside with h | h | h
                  · exact Or.inl h
                  · exact Or.inr (Or.inl h)
                  · exact Or.inr (Or.inr (by omega))),
            ScreenBuffer.cellAt_put_char b hwf]
          rw [if_neg]
          rintro ⟨e1, e2, _, _⟩
          rcases hside with h | h | h
          · exact h e2
          · omega
          · omega

theorem ScreenBuffer.cellAt_put_char_outside {b : ScreenBuffer} (hwf : b.Wf)
    {x w cx cy y p : Nat} (hp1 : x ≤ p) (hp2 : p < x + w)
    (hside : cy ≠ y ∨ cx < x ∨ x + w ≤ cx) (ch : Char) :
    (b.put_char p y ch).cellAt cx cy = b.cellAt cx cy := by
  rw [ScreenBuffer.cellAt_put_char b hwf, if_neg]
  rintro ⟨e1, e2, _, _⟩
  rcases hside with h | h | h
  · exact h e2
  · omega
  · omega

theorem outsideField_of_not {x w cx cy y : Nat} (h : ¬(cy = y ∧ x ≤ cx ∧ cx < x + w)) :
    cy ≠ y ∨ cx < x ∨ x + w ≤ cx := by
  by_cases h1 : cy = y
  · by_cases h2 : cx < x
    · exact Or.inr (Or.inl h2)
    · refine Or.inr (Or.inr ?_)
      have : ¬cx < x + w := fun hlt => h ⟨h1, by omega, hlt⟩
      omega
  · exact Or.inl h1

theorem ScreenBuffer.write_i64_right_width (b : ScreenBuffer) (x y : Nat) (v : Int)
    (w : Nat) : (b.write_i64_right x y v w).width = b.width := by
  unfold ScreenBuffer.write_i64_right
  split
  · rfl
  · dsimp only
    split
    · split
      · rw [ScreenBuffer.put_char_width, ScreenBuffer.blankRow_width]
      · rw [ScreenBuffer.blankRow_width]
    · by_cases hv : v < 0
      · simp only [if_pos hv]
        split
        · rw [ScreenBuffer.put_char_width, ScreenBuffer.digitLoop_width,
            ScreenBuffer.blankRow_width]
        · rw [ScreenBuffer.digitLoop_width, ScreenBuffer.blankRow_width]
      · simp only [if_neg hv]
        split
        · rw [ScreenBuffer.put_char_width, ScreenBuffer.digitLoop_width,
            ScreenBuffer.blankRow_width]
        · rw [ScreenBuffer.digitLoop_width, ScreenBuffer.blankRow_width]

theorem ScreenBuffer.write_i64_right_height (b : ScreenBuffer) (x y : Nat) (v : Int)
    (w : Nat) : (b.write_i64_right x y v w).height = b.height := by
  unfold ScreenBuffer.write_i64_right
  split
  · rfl
  · dsimp only
    split
    · split
      · rw [ScreenBuffer.put_char_height, ScreenBuffer.blankRow_height]
      · rw [ScreenBuffer.blankRow_height]
    · by_cases hv : v < 0
      · simp only [if_pos hv]
        split
        · rw [ScreenBuffer.put_char_height, ScreenBuffer.digitLoop_height,
            ScreenBuffer.blankRow_height]
        · rw [ScreenBuffer.digitLoop_height, ScreenBuffer.blankRow_height]
      · simp only [if_neg hv]
        split
        · rw [ScreenBuffer.put_char_height, ScreenBuffer.digitLoop_height,
            ScreenBuffer.blankRow_height]
        · rw [ScreenBuffer.digitLoop_height, ScreenBuffer.blankRow_height]

theorem ScreenBuffer.write_i64_right_Wf {b : ScreenBuffer} (hwf : b.Wf) (x y : Nat) (v : Int)
    (w : Nat) : (b.write_i64_right x y v w).Wf := by
  unfold ScreenBuffer.write_i64_right
  split
  · exact hwf
  · dsimp only
    split
    · split
      · exact ScreenBuffer.put_char_Wf (ScreenBuffer.blankRow_Wf hwf _ _ _) _ _ _
      · exact ScreenBuffer.blankRow_Wf hwf _ _ _
    · by_cases hv : v < 0
      · simp only [if_pos hv]
        split
        · exact ScreenBuffer.put_char_Wf
            (ScreenBuffer.digitLoop_Wf _ _ _ _ _ (ScreenBuffer.blankRow_Wf hwf _ _ _)) _ _ _
        · exact ScreenBuffer.digitLoop_Wf _ _ _ _ _ (ScreenBuffer.blankRow_Wf hwf _ _ _)
      · simp only [if_neg hv]
        split
        · exact ScreenBuffer.put_char_Wf
            (ScreenBuffer.digitLoop_Wf _ _ _ _ _ (ScreenBuffer.blankRow_Wf hwf _ _ _)) _ _ _
        · exact ScreenBuffer.digitLoop_Wf _ _ _ _ _ (ScreenBuffer.blankRow_Wf hwf _ _ _)

theorem ScreenBuffer.write_i64_right_cellAt_outside (b : ScreenBuffer) (hwf : b.Wf)
    (x y : Nat) (v : Int) (w cx cy : Nat) (h : ¬(cy = y ∧ x ≤ cx ∧ cx < x + w)) :
    (b.write_i64_right x y v w).cellAt cx cy = b.cellAt cx cy := by
  have hside := outsideField_of_not h
  unfold ScreenBuffer.write_i64_right
  split
  · rfl
  · dsimp only
    split
    · split
      · next hw0 =>
          rw [ScreenBuffer.cellAt_put_char_outside (ScreenBuffer.blankRow_Wf hwf _ _ _)
              (by omega) (by omega) hside,
            ScreenBuffer.cellAt_blankRow b hwf, if_neg h]
      · rw [ScreenBuffer.cellAt_blankRow b hwf, if_neg h]
    · by_cases hv : v < 0
      · simp only [if_pos hv]
        split
        · next hneg =>
            have hle := ScreenBuffer.digitLoop_pos_le (x + w) (b.blankRow x y w)
              (wrap64 (-v)).toNat x y
            have h2 := hneg.2
            rw [ScreenBuffer.cellAt_put_char_outside
                (ScreenBuffer.digitLoop_Wf _ _ _ _ _ (ScreenBuffer.blankRow_Wf hwf _ _ _))
                (by omega) (by omega) hside,
              ScreenBuffer.digitLoop_cellAt _ _ _ _ _ _ _
                (ScreenBuffer.blankRow_Wf hwf _ _ _) hside,
              ScreenBuffer.cellAt_blankRow b hwf, if_neg h]
        · rw [ScreenBuffer.digitLoop_cellAt _ _ _ _ _ _ _
              (ScreenBuffer.blankRow_Wf hwf _ _ _) hside,
            ScreenBuffer.cellAt_blankRow b hwf, if_neg h]
      · simp only [if_neg hv]
        split
        · next hneg =>
            have hle := ScreenBuffer.digitLoop_pos_le (x + w) (b.blankRow x y w)
              v.toNat x y
            have h2 := hneg.2
            rw [ScreenBuffer.cellAt_put_char_outside
                (ScreenBuffer.digitLoop_Wf _ _ _ _ _ (ScreenBuffer.blankRow_Wf hwf _ _ _))
                (by omega) (by omega) hside,
              ScreenBuffer.digitLoop_cellAt _ _ _ _ _ _ _
                (ScreenBuffer.blankRow_Wf hwf _ _ _) hside,
              ScreenBuffer.cellAt_blankRow b hwf, if_neg h]
        · rw [ScreenBuffer.digitLoop_cellAt _ _ _ _ _ _ _
              (ScreenBuffer.blankRow_Wf hwf _ _ _) hside,
            ScreenBuffer.cellAt_blankRow b hwf, if_neg h]

theorem ScreenBuffer.cellAt_put_char_outside2 {b : ScreenBuffer} (hwf : b.Wf)
    {x cx cy y p pos2 : Nat} (hp1 : x ≤ p) (hp2 : p < pos2)
    (hside : cy ≠ y ∨ cx < x ∨ pos2 ≤ cx) (ch : Char) :
    (b.put_char p y ch).cellAt cx cy = b.cellAt cx cy := by
  rw [ScreenBuffer.cellAt_put_char b hwf, if_neg]
  rintro ⟨e1, e2, _, _⟩
  rcases hside with h | h | h
  · exact h e2
  · omega
  · omega

theorem ScreenBuffer.f64Tail_width (b2 : ScreenBuffer) (pos2 x y : Nat) (ip : Int)
    (prec : Nat) : (b2.f64Tail pos2 x y ip prec).width = b2.width := by
  unfold ScreenBuffer.f64Tail
  dsimp only
  split <;> split <;> split <;>
    simp only [ScreenBuffer.put_char_width, ScreenBuffer.digitLoop_width]

theorem ScreenBuffer.f64Tail_height (b2 : ScreenBuffer) (pos2 x y : Nat) (ip : Int)
    (prec : Nat) : (b2.f64Tail pos2 x y ip prec).height = b2.height := by
  unfold ScreenBuffer.f64Tail
  dsimp only
  split <;> split <;> split <;>
    simp only [ScreenBuffer.put_char_height, ScreenBuffer.digitLoop_height]

theorem ScreenBuffer.f64Tail_Wf {b2 : ScreenBuffer} (hwf : b2.Wf) (pos2 x y : Nat) (ip : Int)
    (prec : Nat) : (b2.f64Tail pos2 x y ip prec).Wf := by
  unfold ScreenBuffer.f64Tail
  dsimp only
  split <;> split <;> split <;>
    (repeat' first
      | exact hwf
      | apply ScreenBuffer.put_char_Wf
      | apply ScreenBuffer.digitLoop_Wf)

theorem ScreenBuffer.f64Tail_cellAt_outside {b2 : ScreenBuffer} (hwf : b2.Wf)
    {pos2 x y cx cy : Nat} (ip : Int) (prec : Nat)
    (hside : cy ≠ y ∨ cx < x ∨ pos2 ≤ cx) :
    (b2.f64Tail pos2 x y ip prec).cellAt cx cy = b2.cellAt cx cy := by
  unfold ScreenBuffer.f64Tail
  try dsimp only
  by_cases h3 : 0 < prec ∧ x < pos2
  · rw [if_pos h3]
    try dsimp only
    have hwf3 : (b2.put_char (pos2 - 1) y '.').Wf := ScreenBuffer.put_char_Wf hwf _ _ _
    have hpt : (b2.put_char (pos2 - 1) y '.').cellAt cx cy = b2.cellAt cx cy :=
      ScreenBuffer.cellAt_put_char_outside2 hwf (by omega) (by omega) hside '.'
    by_cases h4 : ip.natAbs = 0 ∧ x < pos2 - 1
    · rw [if_pos h4]
      try dsimp only
      split
      · rw [ScreenBuffer.cellAt_put_char_outside2
            (ScreenBuffer.put_char_Wf hwf3 _ _ _) (by omega) (by omega) hside,
          ScreenBuffer.cellAt_put_char_outside2 hwf3 (by omega) (by omega) hside, hpt]
      · rw [ScreenBuffer.cellAt_put_char_outside2 hwf3 (by omega) (by omega) hside, hpt]
    · rw [if_neg h4]
      try dsimp only
      have hle := ScreenBuffer.digitLoop_pos_le (pos2 - 1) (b2.put_char (pos2 - 1) y '.')
        ip.natAbs x y
      have hdig : ((b2.put_char (pos2 - 1) y '.').digitLoop ip.natAbs (pos2 - 1) x y).1.cellAt
          cx cy = b2.cellAt cx cy := by
        rw [ScreenBuffer.digitLoop_cellAt _ _ _ _ _ _ _ hwf3
            (by rcases hside with h | h | h
                · exact Or.inl h
                · exact Or.inr (Or.inl h)
                · exact Or.inr (Or.inr (by omega))), hpt]
      split
      · rw [ScreenBuffer.cellAt_put_char_outside2
            (ScreenBuffer.digitLoop_Wf _ _ _ _ _ hwf3) (by omega) (by omega) hside, hdig]
      · exact hdig
  · rw [if_neg h3]
    try dsimp only
    by_cases h4 : ip.natAbs = 0 ∧ x < pos2
    · rw [if_pos h4]
      try dsimp only
      have hwf4 : (b2.put_char (pos2 - 1) y '0').Wf := ScreenBuffer.put_char_Wf hwf _ _ _
      have hpt : (b2.put_char (pos2 - 1) y '0').cellAt cx cy = b2.cellAt cx cy :=
        ScreenBuffer.cellAt_put_char_outside2 hwf (by omega) (by omega) hside '0'
      split
      · rw [ScreenBuffer.cellAt_put_char_outside2 hwf4 (by omega) (by omega) hside, hpt]
      · exact hpt
    · rw [if_neg h4]
      try dsimp only
      have hle := ScreenBuffer.digitLoop_pos_le pos2 b2 ip.natAbs x y
      have hdig : (b2.digitLoop ip.natAbs pos2 x y).1.cellAt cx cy = b2.cellAt cx cy :=
        ScreenBuffer.digitLoop_cellAt _ _ _ _ _ _ _ hwf hside
      split
      · rw [ScreenBuffer.cellAt_put_char_outside2
            (ScreenBuffer.digitLoop_Wf _ _ _ _ _ hwf) (by omega) (by omega) hside, hdig]
      · exact hdig

theorem ScreenBuffer.write_f64_right_scaled_width (b : ScreenBuffer) (x y : Nat) (sc : Int)
    (w p : Nat) : (b.write_f64_right_scaled x y sc w p).width = b.width := by
  unfold ScreenBuffer.write_f64_right_scaled
  split
  · rfl
  · dsimp only
    rcases hfr : ScreenBuffer.fracLoop x y (b.blankRow x y w)
        (Int.tmod sc (10 ^ p)).natAbs (x + w) p with ⟨b2, pos2, flag⟩
    have hb2 : (ScreenBuffer.fracLoop x y (b.blankRow x y w)
        (Int.tmod sc (10 ^ p)).natAbs (x + w) p).1 = b2 := by rw [hfr]
    have hw2 : b2.width = b.width := by
      rw [← hb2, ScreenBuffer.fracLoop_width, ScreenBuffer.blankRow_width]
    cases flag
    · dsimp only
      rw [ScreenBuffer.f64Tail_width, hw2]
    · dsimp only
      exact hw2

theorem ScreenBuffer.write_f64_right_scaled_height (b : ScreenBuffer) (x y : Nat) (sc : Int)
    (w p : Nat) : (b.write_f64_right_scaled x y sc w p).height = b.height := by
  unfold ScreenBuffer.write_f64_right_scaled
  split
  · rfl
  · dsimp only
    rcases hfr : ScreenBuffer.fracLoop x y (b.blankRow x y w)
        (Int.tmod sc (10 ^ p)).natAbs (x + w) p with ⟨b2, pos2, flag⟩
    have hb2 : (ScreenBuffer.fracLoop x y (b.blankRow x y w)
        (Int.tmod sc (10 ^ p)).natAbs (x + w) p).1 = b2 := by rw [hfr]
    have hh2 : b2.height = b.height := by
      rw [← hb2, ScreenBuffer.fracLoop_height, ScreenBuffer.blankRow_height]
    cases flag
    · dsimp only
      rw [ScreenBuffer.f64Tail_height, hh2]
    · dsimp only
      exact hh2

theorem ScreenBuffer.write_f64_right_scaled_Wf {b : ScreenBuffer} (hwf : b.Wf) (x y : Nat)
    (sc : Int) (w p : Nat) : (b.write_f64_right_scaled x y sc w p).Wf := by
  unfold ScreenBuffer.write_f64_right_scaled
  split
  · exact hwf
  · dsimp only
    rcases hfr : ScreenBuffer.fracLoop x y (b.blankRow x y w)
        (Int.tmod sc (10 ^ p)).natAbs (x + w) p with ⟨b2, pos2, flag⟩
    have hb2 : (ScreenBuffer.fracLoop x y (b.blankRow x y w)
        (Int.tmod sc (10 ^ p)).natAbs (x + w) p).1 = b2 := by rw [hfr]
    have hwf2 : b2.Wf := by
      rw [← hb2]
      exact ScreenBuffer.fracLoop_Wf _ _ _ _ _ _ (ScreenBuffer.blankRow_Wf hwf _ _ _)
    cases flag
    · dsimp only
      exact ScreenBuffer.f64Tail_Wf hwf2 _ _ _ _ _
    · dsimp only
      exact hwf2

theorem ScreenBuffer.write_f64_right_scaled_cellAt_outside (b : ScreenBuffer) (hwf : b.Wf)
    (x y : Nat) (sc : Int) (w p cx cy : Nat) (h : ¬(cy = y ∧ x ≤ cx ∧ cx < x + w)) :
    (b.write_f64_right_scaled x y sc w p).cellAt cx cy = b.cellAt cx cy := by
  have hside := outsideField_of_not h
  unfold ScreenBuffer.write_f64_right_scaled
  split
  · rfl
  · dsimp only
    rcases hfr : ScreenBuffer.fracLoop x y (b.blankRow x y w)
        (Int.tmod sc (10 ^ p)).natAbs (x + w) p with ⟨b2, pos2, flag⟩
    have hb2 : (ScreenBuffer.fracLoop x y (b.blankRow x y w)
        (Int.tmod sc (10 ^ p)).natAbs (x + w) p).1 = b2 := by rw [hfr]
    have hpos2 : (ScreenBuffer.fracLoop x y (b.blankRow x y w)
        (Int.tmod sc (10 ^ p)).natAbs (x + w) p).2.1 = pos2 := by rw [hfr]
    have hwf2 : b2.Wf := by
      rw [← hb2]
      exact ScreenBuffer.fracLoop_Wf _ _ _ _ _ _ (ScreenBuffer.blankRow_Wf hwf _ _ _)
    have hple : pos2 ≤ x + w := by
      rw [← hpos2]; exact ScreenBuffer.fracLoop_pos_le _ _ _ _ _ _
    have hcell2 : b2.cellAt cx cy = b.cellAt cx cy := by
      rw [← hb2,
        ScreenBuffer.fracLoop_cellAt _ _ _ _ _ _ _ _ (ScreenBuffer.blankRow_Wf hwf _ _ _)
          hside,
        ScreenBuffer.cellAt_blankRow b hwf, if_neg h]
    cases flag
    · dsimp only
      rw [ScreenBuffer.f64Tail_cellAt_outside hwf2 _ _
          (by rcases hside with hs | hs | hs
              · exact Or.inl hs
              · exact Or.inr (Or.inl hs)
              · exact Or.inr (Or.inr (by omega))), hcell2]
    · dsimp only
      exact hcell2

theorem ScreenBuffer.blankRow_congr {b b' : ScreenBuffer} (x y w : Nat) (hwf : b.Wf)
    (hwf' : b'.Wf) (hw : b.width = b'.width) (hh : b.height = b'.height)
    (hc : ∀ cx cy, cx < b.width → cy < b.height → ¬(cy = y ∧ x ≤ cx ∧ cx < x + w) →
      b.cellAt cx cy = b'.cellAt cx cy) :
    b.blankRow x y w = b'.blankRow x y w := by
  apply ScreenBuffer.eq_of_cellAt (ScreenBuffer.blankRow_Wf hwf x y w)
    (ScreenBuffer.blankRow_Wf hwf' x y w)
  · rw [ScreenBuffer.blankRow_width, ScreenBuffer.blankRow_width, hw]
  · rw [ScreenBuffer.blankRow_height, ScreenBuffer.blankRow_height, hh]
  · intro cx cy hcx hcy
    rw [ScreenBuffer.blankRow_width] at hcx
    rw [ScreenBuffer.blankRow_height] at hcy
    rw [ScreenBuffer.cellAt_blankRow b hwf, ScreenBuffer.cellAt_blankRow b' hwf']
    by_cases hin : cy = y ∧ x ≤ cx ∧ cx < x + w
    · rw [if_pos hin, if_pos hin]
    · rw [if_neg hin, if_neg hin]
      exact hc cx cy hcx hcy hin

theorem ScreenBuffer.write_i64_right_congr {b b' : ScreenBuffer} {x y : Nat} {v : Int}
    {w : Nat} (hh : b.height = b'.height) (hy : y < b.height)
    (hbl : b.blankRow x y w = b'.blankRow x y w) :
    b.write_i64_right x y v w = b'.write_i64_right x y v w := by
  unfold ScreenBuffer.write_i64_right
  rw [if_neg (show ¬y ≥ b.height by omega), if_neg (show ¬y ≥ b'.height by omega), hbl]

theorem ScreenBuffer.write_f64_right_scaled_congr {b b' : ScreenBuffer} {x y : Nat}
    {sc : Int} {w p : Nat} (hh : b.height = b'.height) (hy : y < b.height)
    (hbl : b.blankRow x y w = b'.blankRow x y w) :
    b.write_f64_right_scaled x y sc w p = b'.write_f64_right_scaled x y sc w p := by
  unfold ScreenBuffer.write_f64_right_scaled
  rw [if_neg (show ¬y ≥ b.height by omega), if_neg (show ¬y ≥ b'.height by omega), hbl]

theorem ScreenBuffer.write_i64_right_idem (b : ScreenBuffer) (hwf : b.Wf) (x y : Nat)
    (v : Int) (w : Nat) :
    (b.write_i64_right x y v w).write_i64_right x y v w = b.write_i64_right x y v w := by
  by_cases hy : y ≥ b.height
  · have h1 : b.write_i64_right x y v w = b := by
      unfold ScreenBuffer.write_i64_right; rw [if_pos hy]
    rw [h1, h1]
  · apply ScreenBuffer.write_i64_right_congr (ScreenBuffer.write_i64_right_height b x y v w)
      (by rw [ScreenBuffer.write_i64_right_height]; omega)
    apply ScreenBuffer.blankRow_congr x y w (ScreenBuffer.write_i64_right_Wf hwf x y v w) hwf
      (ScreenBuffer.write_i64_right_width b x y v w)
      (ScreenBuffer.write_i64_right_height b x y v w)
    intro cx cy _ _ hout
    exact ScreenBuffer.write_i64_right_cellAt_outside b hwf x y v w cx cy hout

theorem ScreenBuffer.write_f64_right_scaled_idem (b : ScreenBuffer) (hwf : b.Wf) (x y : Nat)
    (sc : Int) (w p : Nat) :
    (b.write_f64_right_scaled x y sc w p).write_f64_right_scaled x y sc w p =
      b.write_f64_right_scaled x y sc w p := by
  by_cases hy : y ≥ b.height
  · have h1 : b.write_f64_right_scaled x y sc w p = b := by
      unfold ScreenBuffer.write_f64_right_scaled; rw [if_pos hy]
    rw [h1, h1]
  · apply ScreenBuffer.write_f64_right_scaled_congr
      (ScreenBuffer.write_f64_right_scaled_height b x y sc w p)
      (by rw [ScreenBuffer.write_f64_right_scaled_height]; omega)
    apply ScreenBuffer.blankRow_congr x y w
      (ScreenBuffer.write_f64_right_scaled_Wf hwf x y sc w p) hwf
      (ScreenBuffer.write_f64_right_scaled_width b x y sc w p)
      (ScreenBuffer.write_f64_right_scaled_height b x y sc w p)
    intro cx cy _ _ hout
    exact ScreenBuffer.write_f64_right_scaled_cellAt_outside b hwf x y sc w p cx cy hout

/-! ### Claim theorems -/

/-- C6: the claim says `draw_hline` writes every in-bounds cell of the stroke
and clips each cell independently (so a stroke starting at the last in-bounds
column still writes that column), and that `draw_vline` clips against the
grid height.  The code instead tests the loop-invariant `x + 1 >= width`
(resp. `y + 1 >= width` — the width, not the height) and drops the whole
stroke: on a 3 x 3 grid, `draw_hline(2, 0, 1, '#')` writes nothing although
cell (2, 0) is in bounds, and on a 2 x 10 grid `draw_vline(0, 1, 3, '#')`
writes nothing although cells (0, 1..3) are in bounds. -/
theorem claim_C6_stroke_clipping_bug :
    (ScreenBuffer.new 3 3).draw_hline 2 0 1 '#' = ScreenBuffer.new 3 3 ∧
    ((ScreenBuffer.new 3 3).draw_hline 2 0 1 '#').cellAt 2 0 = ' ' ∧
    (ScreenBuffer.new 2 10).draw_vline 0 1 3 '#' = ScreenBuffer.new 2 10 ∧
    ((ScreenBuffer.new 2 10).draw_vline 0 1 3 '#').cellAt 0 2 = ' ' :=
  ⟨by decide, by decide, by decide, by decide⟩

/-- C7, counterexample: `draw_frame` does not complete normally for all
`w`, `h`.  For `w = 1` (and likewise `w = 0`, `h = 0`) the interior-stroke
length `w - 2` underflows `usize`: a panic in a debug build (modelled by
`none`), a wrap to a near-`2^64` stroke length in release. -/
theorem claim_C7_counterexample :
    (ScreenBuffer.new 5 5).draw_frame_checked 0 0 1 3 = none ∧
    (ScreenBuffer.new 5 5).draw_frame_checked 0 0 0 0 = none :=
  ⟨by decide, by decide⟩

/-- C7, amended: `draw_frame(x, y, w, h)` completes normally — none of its
four `usize` subtractions underflows — for every `x`, `y` whenever `w ≥ 2`
and `h ≥ 2`, and then computes exactly the total embedding `draw_frame`;
for `w < 2` or `h < 2` the subtraction `w - 2` (resp. `h - 2`) underflows,
so the precondition violation is not the claimed harmless
overlapping-glyphs outcome. -/
theorem claim_C7_draw_frame_amended :
    ∀ (b : ScreenBuffer) (x y w h : Nat), 2 ≤ w → 2 ≤ h →
      b.draw_frame_checked x y w h = some (b.draw_frame x y w h) := by
  intro b x y w h hw hh
  unfold ScreenBuffer.draw_frame_checked checkedSub
  rw [if_pos (show 1 ≤ x + w by omega), if_pos (show 1 ≤ y + h by omega), if_pos hw,
    if_pos hh]
  unfold ScreenBuffer.draw_frame
  rfl

theorem claim_C7_witness :
    2 ≤ 4 ∧ 2 ≤ 3 ∧
    (ScreenBuffer.new 6 6).draw_frame_checked 1 1 4 3 =
      some ((ScreenBuffer.new 6 6).draw_frame 1 1 4 3) :=
  ⟨by decide, by decide, claim_C7_draw_frame_amended _ 1 1 4 3 (by decide) (by decide)⟩

/-- C8: for a well-formed grid, an in-bounds `put_char` followed by a read of
that cell returns the written character and changes no other cell; an
out-of-bounds `put_char` leaves the whole grid unchanged. -/
theorem claim_C8_put_char_spec :
    ∀ (b : ScreenBuffer), b.Wf → ∀ (x y : Nat) (ch : Char),
      ((x < b.width ∧ y < b.height) →
        (b.put_char x y ch).cellAt x y = ch ∧
        ∀ cx cy, ¬(cx = x ∧ cy = y) → (b.put_char x y ch).cellAt cx cy = b.cellAt cx cy) ∧
      (¬(x < b.width ∧ y < b.height) → b.put_char x y ch = b) := by
  intro b hwf x y ch
  constructor
  · intro hin
    constructor
    · rw [ScreenBuffer.cellAt_put_char b hwf, if_pos ⟨rfl, rfl, hin.1, hin.2⟩]
    · intro cx cy hne
      rw [ScreenBuffer.cellAt_put_char b hwf, if_neg]
      rintro ⟨e1, e2, _, _⟩
      exact hne ⟨e1, e2⟩
  · intro hout
    unfold ScreenBuffer.put_char
    rw [if_pos (by omega)]

theorem claim_C8_witness :
    (ScreenBuffer.new 3 2).Wf ∧
    ((ScreenBuffer.new 3 2).put_char 1 1 'Q').cellAt 1 1 = 'Q' ∧
    ((ScreenBuffer.new 3 2).put_char 1 1 'Q').cellAt 0 1 = (ScreenBuffer.new 3 2).cellAt 0 1 ∧
    (ScreenBuffer.new 3 2).put_char 5 0 'Q' = ScreenBuffer.new 3 2 := by
  refine ⟨by decide, ?_, ?_, ?_⟩
  · exact ((claim_C8_put_char_spec _ (by decide) 1 1 'Q').1 (by decide)).1
  · exact ((claim_C8_put_char_spec _ (by decide) 1 1 'Q').1 (by decide)).2 0 1 (by decide)
  · exact (claim_C8_put_char_spec _ (by decide) 5 0 'Q').2 (by decide)

/-- C9: both fixed-width numeric writers are idempotent on every well-formed
grid state: the field is re-blanked at the start of each call and every
subsequent write lands inside the field at a position determined by the
arguments alone, so a second identical call reproduces the same grid.  For
the float writer the statement quantifies over the i64 result `scaled` of
the fixed prescaling `(value * 10^precision).round()`, which is the same in
both calls, so this covers every f64 input. -/
theorem claim_C9_writers_idempotent :
    ∀ (b : ScreenBuffer), b.Wf → ∀ (x y : Nat) (v : Int) (w : Nat) (scaled : Int) (p : Nat),
      (b.write_i64_right x y v w).write_i64_right x y v w = b.write_i64_right x y v w ∧
      (b.write_f64_right_scaled x y scaled w p).write_f64_right_scaled x y scaled w p =
        b.write_f64_right_scaled x y scaled w p :=
  fun b hwf x y v w scaled p =>
    ⟨ScreenBuffer.write_i64_right_idem b hwf x y v w,
     ScreenBuffer.write_f64_right_scaled_idem b hwf x y scaled w p⟩

theorem claim_C9_witness :
    (ScreenBuffer.new 6 2).Wf ∧
    ((ScreenBuffer.new 6 2).write_i64_right 0 0 (-37) 4).write_i64_right 0 0 (-37) 4 =
      (ScreenBuffer.new 6 2).write_i64_right 0 0 (-37) 4 ∧
    ((ScreenBuffer.new 6 2).write_f64_right_scaled 0 1 125 5 1).write_f64_right_scaled 0 1
        125 5 1 =
      (ScreenBuffer.new 6 2).write_f64_right_scaled 0 1 125 5 1 :=
  ⟨by decide,
   (claim_C9_writers_idempotent (ScreenBuffer.new 6 2) (by decide) 0 0 (-37) 4 125 1).1,
   (claim_C9_writers_idempotent (ScreenBuffer.new 6 2) (by decide) 0 1 (-37) 5 125 1).2⟩

/-- C10: the sign-stripping negation of `write_i64_right` stays in the i64
range for every i64 value except `i64::MIN`, where it overflows: under the
debug-build embedding the writer returns `none` (panic) exactly there, and
is defined (`some`) for every other in-range value. -/
theorem claim_C10_i64_min_negation :
    (∀ (b : ScreenBuffer) (x y : Nat) (v : Int) (w : Nat), i64InRange v → v ≠ i64Min →
        (b.write_i64_right_checked x y v w).isSome = true) ∧
    (∀ (b : ScreenBuffer) (x y w : Nat), y < b.height →
        b.write_i64_right_checked x y i64Min w = none) := by
  constructor
  · intro b x y v w hrange hmin
    unfold ScreenBuffer.write_i64_right_checked
    split
    · rfl
    · dsimp only
      split
      · rfl
      · rw [if_neg]
        · rfl
        · rintro ⟨h1, h2⟩
          apply h2
          unfold i64InRange at hrange
          unfold i64Min at hmin
          omega
  · intro b x y w hy
    unfold ScreenBuffer.write_i64_right_checked
    rw [if_neg (show ¬y ≥ b.height by omega)]
    dsimp only
    rw [if_neg (show ¬i64Min = (0 : Int) by decide),
      if_pos (show i64Min < 0 ∧ ¬(-i64Min < 2 ^ 63) by decide)]

theorem claim_C10_witness :
    (i64InRange 5 ∧ (5 : Int) ≠ i64Min ∧
      ((ScreenBuffer.new 2 2).write_i64_right_checked 0 0 5 2).isSome = true) ∧
    (0 < (ScreenBuffer.new 2 2).height ∧
      (ScreenBuffer.new 2 2).write_i64_right_checked 0 0 i64Min 2 = none) :=
  ⟨⟨by decide, by decide, (claim_C10_i64_min_negation).1 _ 0 0 5 2 (by decide) (by decide)⟩,
   ⟨by decide, (claim_C10_i64_min_negation).2 _ 0 0 2 (by decide)⟩⟩

theorem Ui.advance_available_none_x {u : Ui} (w h : Nat) (hn : u.available_x = none) :
    (u.advance w h).available_x = none := by
  unfold Ui.advance
  dsimp only
  split <;> simp [hn]

theorem Ui.advance_available_none_y {u : Ui} (w h : Nat) (hn : u.available_y = none) :
    (u.advance w h).available_y = none := by
  unfold Ui.advance
  dsimp only
  split <;> simp [hn]

theorem Ui.draw_frame_available (u : Ui) (x y w h : Nat) :
    (u.draw_frame x y w h).available_x = u.available_x ∧
    (u.draw_frame x y w h).available_y = u.available_y := by
  unfold Ui.draw_frame
  split <;> exact ⟨rfl, rfl⟩

theorem exec_available_none (o : Op) (u : Ui) :
    (u.available_x = none → (exec o u).available_x = none) ∧
    (u.available_y = none → (exec o u).available_y = none) := by
  cases o with
  | space amount =>
      simp only [exec]
      unfold Ui.space
      constructor <;> intro hn <;> split <;>
        first
          | exact Ui.advance_available_none_x _ _ hn
          | exact Ui.advance_available_none_y _ _ hn
  | label text width align =>
      simp only [exec]
      unfold Ui.label
      dsimp only
      constructor <;> intro hn <;> split <;>
        first
          | exact Ui.advance_available_none_x _ _ hn
          | exact Ui.advance_available_none_y _ _ hn
  | labelAlign text width ai ao =>
      simp only [exec]
      unfold Ui.label_align
      dsimp only
      constructor <;> intro hn <;> split <;>
        first
          | exact Ui.advance_available_none_x _ _ hn
          | exact Ui.advance_available_none_y _ _ hn
  | numberI64 v w =>
      simp only [exec]
      unfold Ui.number_i64
      dsimp only
      constructor <;> intro hn <;> split <;>
        first
          | exact Ui.advance_available_none_x _ _ hn
          | exact Ui.advance_available_none_y _ _ hn
  | numberF64 sc p w =>
      simp only [exec]
      unfold Ui.number_f64
      dsimp only
      constructor <;> intro hn <;> split <;>
        first
          | exact Ui.advance_available_none_x _ _ hn
          | exact Ui.advance_available_none_y _ _ hn
  | vertical ops =>
      simp only [exec]
      unfold Ui.childClose
      exact ⟨fun hn => Ui.advance_available_none_x _ _ hn,
        fun hn => Ui.advance_available_none_y _ _ hn⟩
  | horizontal ops =>
      simp only [exec]
      unfold Ui.childClose
      exact ⟨fun hn => Ui.advance_available_none_x _ _ hn,
        fun hn => Ui.advance_available_none_y _ _ hn⟩
  | frame padding border stretch ops =>
      simp only [exec]
      unfold Ui.frameClose
      dsimp only
      constructor <;> intro hn <;> split
      · exact Ui.advance_available_none_x _ _
          (by rw [(Ui.draw_frame_available _ _ _ _ _).1]; exact hn)
      · exact Ui.advance_available_none_x _ _ hn
      · exact Ui.advance_available_none_y _ _
          (by rw [(Ui.draw_frame_available _ _ _ _ _).2]; exact hn)
      · exact Ui.advance_available_none_y _ _ hn
  | grid cols spacing cells =>
      simp only [exec]
      unfold Ui.gridClose
      dsimp only
      exact ⟨fun hn => Ui.advance_available_none_x _ _ hn,
        fun hn => Ui.advance_available_none_y _ _ hn⟩

theorem execList_available_none : ∀ (l : Ops) (u : Ui),
    ((u.available_x = none → (execList l u).available_x = none) ∧
     (u.available_y = none → (execList l u).available_y = none))
  | .nil, u => ⟨fun h => h, fun h => h⟩
  | .cons o os, u =>
      ⟨fun h => (execList_available_none os (exec o u)).1 ((exec_available_none o u).1 h),
       fun h => (execList_available_none os (exec o u)).2 ((exec_available_none o u).2 h)⟩

/-- C1: within one compositor scope, (i) an advance whose main-axis
consumption exceeds the finite budget turns that budget to `none`; (ii) an
advance that fits subtracts exactly (`checked_sub`, no wrap and no crash by
construction); (iii) every public operation, and hence every operation
sequence, maps a `none` budget to `none` on both axes — once unbounded,
never again finite. -/
theorem claim_C1_budget_exhaustion_permanent :
    (∀ (u : Ui) (w h a : Nat), u.layout = .Vertical → u.available_y = some a → a < h →
        (u.advance w h).available_y = none) ∧
    (∀ (u : Ui) (w h a : Nat), u.layout = .Vertical → u.available_y = some a → h ≤ a →
        (u.advance w h).available_y = some (a - h)) ∧
    (∀ (u : Ui) (w h a : Nat), u.layout = .Horizontal → u.available_x = some a → a < w →
        (u.advance w h).available_x = none) ∧
    (∀ (u : Ui) (w h a : Nat), u.layout = .Horizontal → u.available_x = some a → w ≤ a →
        (u.advance w h).available_x = some (a - w)) ∧
    (∀ (o : Op) (u : Ui),
        (u.available_x = none → (exec o u).available_x = none) ∧
        (u.available_y = none → (exec o u).available_y = none)) ∧
    (∀ (l : Ops) (u : Ui),
        (u.available_x = none → (execList l u).available_x = none) ∧
        (u.available_y = none → (execList l u).available_y = none)) := by
  refine ⟨?_, ?_, ?_, ?_, exec_available_none, execList_available_none⟩
  · intro u w h a hl ha hex
    unfold Ui.advance
    dsimp only
    rw [hl]
    dsimp only
    rw [ha]
    simp [checkedSub, Option.bind]
    omega
  · intro u w h a hl ha hfit
    unfold Ui.advance
    dsimp only
    rw [hl]
    dsimp only
    rw [ha]
    simp [checkedSub, Option.bind, hfit]
  · intro u w h a hl ha hex
    unfold Ui.advance
    dsimp only
    rw [hl]
    dsimp only
    rw [ha]
    simp [checkedSub, Option.bind]
    omega
  · intro u w h a hl ha hfit
    unfold Ui.advance
    dsimp only
    rw [hl]
    dsimp only
    rw [ha]
    simp [checkedSub, Option.bind, hfit]

theorem claim_C1_witness :
    budgetUi.layout = .Vertical ∧ budgetUi.available_y = some 2 ∧ 2 < 3 ∧
    (budgetUi.advance 0 3).available_y = none ∧
    (budgetUi.advance 0 2).available_y = some 0 ∧
    budgetUi.available_x = none ∧
    (execList (.cons (.label "hi".toList none .Left) (.cons (.space 5) .nil))
        budgetUi).available_x = none := by
  refine ⟨rfl, rfl, by decide, ?_, ?_, rfl, ?_⟩
  · exact claim_C1_budget_exhaustion_permanent.1 budgetUi 0 3 2 rfl rfl (by decide)
  · exact claim_C1_budget_exhaustion_permanent.2.1 budgetUi 0 2 2 rfl rfl (by decide)
  · exact (claim_C1_budget_exhaustion_permanent.2.2.2.2.2
      (.cons (.label "hi".toList none .Left) (.cons (.space 5) .nil)) budgetUi).1 rfl

theorem exec_leaf_fields (l : Op) (hl : l.isLeaf = true) (u : Ui)
    (hv : u.layout = .Vertical) :
    (exec l u).cursor_x = u.cursor_x ∧
    (exec l u).cursor_y = u.cursor_y + 1 + u.spacing ∧
    (exec l u).max_x = max u.max_x (u.cursor_x + l.leafW) ∧
    (exec l u).max_y = max u.max_y (u.cursor_y + 1) ∧
    (exec l u).used_x = max u.used_x l.leafW ∧
    (exec l u).layout = .Vertical ∧
    (exec l u).spacing = u.spacing := by
  cases l with
  | label text width align =>
      by_cases hd : u.draw <;>
        simp [exec, Op.leafW, Ui.label, Ui.advance, Ui.setBuf, hv, hd]
  | labelAlign text width ai ao =>
      by_cases hd : u.draw <;>
        simp [exec, Op.leafW, Ui.label_align, Ui.advance, Ui.setBuf, hv, hd, Nat.max_assoc]
  | numberI64 v w =>
      by_cases hd : u.draw <;>
        simp [exec, Op.leafW, Ui.number_i64, Ui.advance, Ui.setBuf, hv, hd]
  | numberF64 sc p w =>
      by_cases hd : u.draw <;>
        simp [exec, Op.leafW, Ui.number_f64, Ui.advance, Ui.setBuf, hv, hd]
  | space amount => simp [Op.isLeaf] at hl
  | vertical ops => simp [Op.isLeaf] at hl
  | horizontal ops => simp [Op.isLeaf] at hl
  | frame p b st ops => simp [Op.isLeaf] at hl
  | grid c sp cells => simp [Op.isLeaf] at hl

/-- C4: a `vertical` scope holding exactly two leaves of field widths `w1`,
`w2` (every leaf has height 1) folds into its parent the size
`(max w1 w2, 1 + 1 + spacing)`: the main axis contributes the child's extent
travel `max_y - start_y = h1 + h2 + spacing`, the cross axis the child's
used-width tracker `max w1 w2`; and the scope's return performs exactly one
`advance` of that size on the parent. -/
theorem claim_C4_vertical_two_leaves :
    ∀ (u : Ui) (l1 l2 : Op), l1.isLeaf = true → l2.isLeaf = true →
      (execList (.cons l1 (.cons l2 .nil)) (u.mkChild .Vertical u.spacing)).childSize
          u.cursor_x u.cursor_y = (max l1.leafW l2.leafW, 1 + 1 + u.spacing) ∧
      exec (.vertical (.cons l1 (.cons l2 .nil))) u =
        (u.setBuf (execList (.cons l1 (.cons l2 .nil))
            (u.mkChild .Vertical u.spacing)).buf).advance
          (max l1.leafW l2.leafW) (1 + 1 + u.spacing) := by
  intro u l1 l2 h1 h2
  obtain ⟨a1, b1, c1, d1, e1, g1, s1⟩ :=
    exec_leaf_fields l1 h1 (u.mkChild .Vertical u.spacing) rfl
  obtain ⟨a2, b2, c2, d2, e2, g2, s2⟩ :=
    exec_leaf_fields l2 h2 (exec l1 (u.mkChild .Vertical u.spacing)) g1
  have hrun : execList (.cons l1 (.cons l2 .nil)) (u.mkChild .Vertical u.spacing)
      = exec l2 (exec l1 (u.mkChild .Vertical u.spacing)) := rfl
  have hsz : (execList (.cons l1 (.cons l2 .nil)) (u.mkChild .Vertical u.spacing)).childSize
      u.cursor_x u.cursor_y = (max l1.leafW l2.leafW, 1 + 1 + u.spacing) := by
    rw [hrun]
    unfold Ui.childSize
    rw [g2]
    dsimp only
    rw [e2, e1, d2, d1, b1]
    dsimp only [Ui.mkChild]
    simp only [Prod.mk.injEq]
    constructor
    · rw [Nat.zero_max]
    · rw [Nat.max_eq_right (show u.cursor_y ≤ u.cursor_y + 1 by omega),
        Nat.max_eq_right (show u.cursor_y + 1 ≤ u.cursor_y + 1 + u.spacing + 1 by omega)]
      omega
  refine ⟨hsz, ?_⟩
  simp only [exec]
  unfold Ui.childClose
  rw [hsz]

theorem claim_C4_witness :
    (Op.label "ab".toList none .Left).isLeaf = true ∧
    (Op.label "a".toList (some 3) .Right).isLeaf = true ∧
    (execList (.cons (Op.label "ab".toList none .Left)
        (.cons (Op.label "a".toList (some 3) .Right) .nil))
      (demoRoot.mkChild .Vertical demoRoot.spacing)).childSize demoRoot.cursor_x
        demoRoot.cursor_y =
      (max (Op.label "ab".toList none .Left).leafW
        (Op.label "a".toList (some 3) .Right).leafW, 1 + 1 + demoRoot.spacing) :=
  ⟨rfl, rfl, (claim_C4_vertical_two_leaves demoRoot (Op.label "ab".toList none .Left)
    (Op.label "a".toList (some 3) .Right) rfl rfl).1⟩

theorem Ui.advance_buf (u : Ui) (w h : Nat) : (u.advance w h).buf = u.buf := by
  unfold Ui.advance
  dsimp only
  split <;> rfl

theorem Ui.advance_draw (u : Ui) (w h : Nat) : (u.advance w h).draw = u.draw := by
  unfold Ui.advance
  dsimp only
  split <;> rfl

theorem Ui.draw_frame_draw (u : Ui) (x y w h : Nat) : (u.draw_frame x y w h).draw = u.draw := by
  unfold Ui.draw_frame
  split <;> rfl

theorem Ui.draw_frame_of_no_draw {u : Ui} (hd : u.draw = false) (x y w h : Nat) :
    u.draw_frame x y w h = u := by
  unfold Ui.draw_frame
  rw [if_pos hd]

theorem exec_draw (o : Op) (u : Ui) : (exec o u).draw = u.draw := by
  cases o with
  | space amount =>
      simp only [exec]; unfold Ui.space; split <;> rw [Ui.advance_draw]
  | label text width align =>
      simp only [exec]; unfold Ui.label; dsimp only
      rw [Ui.advance_draw]; split <;> rfl
  | labelAlign text width ai ao =>
      simp only [exec]; unfold Ui.label_align; dsimp only
      rw [Ui.advance_draw]; split <;> rfl
  | numberI64 v w =>
      simp only [exec]; unfold Ui.number_i64; dsimp only
      rw [Ui.advance_draw]; split <;> rfl
  | numberF64 sc p w =>
      simp only [exec]; unfold Ui.number_f64; dsimp only
      rw [Ui.advance_draw]; split <;> rfl
  | vertical ops =>
      simp only [exec]; unfold Ui.childClose; rw [Ui.advance_draw]; rfl
  | horizontal ops =>
      simp only [exec]; unfold Ui.childClose; rw [Ui.advance_draw]; rfl
  | frame padding border stretch ops =>
      simp only [exec]; unfold Ui.frameClose; dsimp only
      rw [Ui.advance_draw]
      split
      · rw [Ui.draw_frame_draw]; rfl
      · rfl
  | grid cols spacing cells =>
      simp only [exec]; unfold Ui.gridClose; dsimp only; rw [Ui.advance_draw]; rfl

mutual
theorem exec_buf_of_no_draw (o : Op) (u : Ui) (hg : o.gridFree = true)
    (hd : u.draw = false) : (exec o u).buf = u.buf := by
  cases o with
  | space amount =>
      simp only [exec]; unfold Ui.space; split <;> rw [Ui.advance_buf]
  | label text width align =>
      simp only [exec]; unfold Ui.label; dsimp only
      rw [Ui.advance_buf]; simp [hd]
  | labelAlign text width ai ao =>
      simp only [exec]; unfold Ui.label_align; dsimp only
      rw [Ui.advance_buf]; simp [hd]
  | numberI64 v w =>
      simp only [exec]; unfold Ui.number_i64; dsimp only
      rw [Ui.advance_buf]; simp [hd]
  | numberF64 sc p w =>
      simp only [exec]; unfold Ui.number_f64; dsimp only
      rw [Ui.advance_buf]; simp [hd]
  | vertical ops =>
      simp only [exec]; unfold Ui.childClose
      rw [Ui.advance_buf]
      exact execList_buf_of_no_draw ops (u.mkChild .Vertical u.spacing)
        (by simp only [Op.gridFree] at hg; exact hg) hd
  | horizontal ops =>
      simp only [exec]; unfold Ui.childClose
      rw [Ui.advance_buf]
      exact execList_buf_of_no_draw ops (u.mkChild .Horizontal u.spacing)
        (by simp only [Op.gridFree] at hg; exact hg) hd
  | frame padding border stretch ops =>
      simp only [exec]; unfold Ui.frameClose; dsimp only
      rw [Ui.advance_buf]
      have hc : (execList ops (u.frameChild padding)).buf = u.buf :=
        execList_buf_of_no_draw ops (u.frameChild padding)
          (by simp only [Op.gridFree] at hg; exact hg) hd
      split
      · rw [Ui.draw_frame_of_no_draw
            (show (u.setBuf (execList ops (u.frameChild padding)).buf).draw = false from hd)]
        rw [Ui.setBuf, hc]
      · rw [Ui.setBuf, hc]
  | grid cols spacing cells => simp [Op.gridFree] at hg
theorem execList_buf_of_no_draw (l : Ops) (u : Ui) (hg : l.gridFree = true)
    (hd : u.draw = false) : (execList l u).buf = u.buf := by
  cases l with
  | nil => rfl
  | cons o os =>
      simp only [execList]
      simp only [Ops.gridFree, Bool.and_eq_true] at hg
      rw [execList_buf_of_no_draw os (exec o u) hg.2 (by rw [exec_draw]; exact hd),
        exec_buf_of_no_draw o u hg.1 hd]
end

theorem execCells_buf_of_no_draw (cs : Cells) : ∀ (g : UiGridState), cs.gridFree = true →
    g.draw = false → (execCells cs g).buf = g.buf := by
  cases cs with
  | nil => intro g _ _; rfl
  | cons c rest =>
      intro g hg hd
      simp only [execCells]
      simp only [Cells.gridFree, Bool.and_eq_true] at hg
      rw [execCells_buf_of_no_draw rest _ hg.2 (by exact hd)]
      unfold UiGridState.cellClose
      dsimp only
      exact execList_buf_of_no_draw c _ hg.1 (by exact hd)

/-- C3, counterexample: a cell containing a nested grid draws during the
outer measure pass.  The nested grid's second pass is constructed with
drawing enabled regardless of the suppressed outer context (`draw: true` at
line 437), so the label lands on the buffer before the outer draw pass even
starts: on a blank 3 x 1 grid the measure pass alone turns cell (0, 0) into
'a'. -/
theorem claim_C3_counterexample :
    (smallRoot.gridMeasure 1 0 nestedGridCells).buf.cellAt 0 0 = 'a' ∧
    smallRoot.buf.cellAt 0 0 = ' ' ∧
    (smallRoot.gridMeasure 1 0 nestedGridCells).buf ≠ smallRoot.buf :=
  ⟨by decide, by decide, by decide⟩

/-- C3, amended: the measure pass of `grid` leaves the character grid
untouched for every population program whose cells contain no nested `grid`
operation (labels, numeric leaves, nested vertical/horizontal scopes and
frames in any combination): every draw site checks the suppressed draw flag
and every nested scope inherits it.  Nested grids are the exception the
original claim missed: their inner draw pass always re-enables drawing. -/
theorem claim_C3_measure_pass_suppressed_amended :
    ∀ (u : Ui) (cols spacing : Nat) (cells : Cells), cells.gridFree = true →
      (u.gridMeasure cols spacing cells).buf = u.buf := by
  intro u cols spacing cells hg
  unfold Ui.gridMeasure
  exact execCells_buf_of_no_draw cells _ hg rfl

theorem claim_C3_witness :
    fourLabelCells.gridFree = true ∧
    (demoRoot.gridMeasure 2 1 fourLabelCells).buf = demoRoot.buf :=
  ⟨rfl, claim_C3_measure_pass_suppressed_amended demoRoot 2 1 fourLabelCells rfl⟩

theorem exec_labelAlign_buf (u : Ui) (hd : u.draw = true) (text : List Char)
    (width : Option Nat) (ai ao : Align) :
    (exec (Op.labelAlign text width ai ao) u).buf =
      (u.buf.blankRow u.cursor_x u.cursor_y (width.getD text.length)).write_str
        (u.labelAlignStart (width.getD text.length) (min text.length (width.getD text.length))
          ai ao)
        u.cursor_y
        (if text.length > width.getD text.length then text.take (width.getD text.length)
          else text) := by
  simp only [exec]
  unfold Ui.label_align
  dsimp only
  rw [Ui.advance_buf]
  simp [hd, Ui.setBuf]

/-- C5, counterexample: `label_align` does not blank the outer-aligned
field.  On a 10-wide row of 'Z's with known x-budget 10,
`label_align("x", Some(5), Right, Right)` places the field at columns 5..9
and the character at column 9, but the blanking loop runs at the cursor
(columns 0..4): column 5 — inside the field the claim says is blanked first
— still holds 'Z', while column 0, outside the field, was blanked. -/
theorem claim_C5_counterexample :
    (exec (Op.labelAlign "x".toList (some 5) .Right .Right) zUi).buf.cellAt 5 0 = 'Z' ∧
    (exec (Op.labelAlign "x".toList (some 5) .Right .Right) zUi).buf.cellAt 9 0 = 'x' ∧
    (exec (Op.labelAlign "x".toList (some 5) .Right .Right) zUi).buf.cellAt 0 0 = ' ' ∧
    zUi.available_x = some 10 ∧ zUi.draw = true :=
  ⟨by decide, by decide, by decide, rfl, rfl⟩

/-- C5, amended: with drawing enabled, `label_align` blanks the `w` cells at
the cursor — `[cursor_x, cursor_x + w)` — regardless of the outer alignment,
then writes the (possibly truncated) text at the start column selected by
the outer and inner alignments; cells outside both regions are unchanged.
When the outer alignment shifts the field away from the cursor, the field
itself is not blanked (only the text slice is written into it). -/
theorem claim_C5_label_align_blanks_cursor_amended :
    ∀ (u : Ui) (text : List Char) (width : Option Nat) (ai ao : Align),
      u.draw = true → u.buf.Wf →
      ∀ w slice startX, w = width.getD text.length →
        slice = (if text.length > w then text.take w else text) →
        startX = u.labelAlignStart w (min text.length w) ai ao →
        (∀ j, j < slice.length → startX + j < u.buf.width → u.cursor_y < u.buf.height →
          (exec (Op.labelAlign text width ai ao) u).buf.cellAt (startX + j) u.cursor_y =
            slice.getD j ' ') ∧
        (∀ i, i < w → (u.cursor_x + i < startX ∨ startX + slice.length ≤ u.cursor_x + i) →
          u.cursor_x + i < u.buf.width → u.cursor_y < u.buf.height →
          (exec (Op.labelAlign text width ai ao) u).buf.cellAt (u.cursor_x + i) u.cursor_y =
            ' ') ∧
        (∀ cx cy, ¬(cy = u.cursor_y ∧ u.cursor_x ≤ cx ∧ cx < u.cursor_x + w) →
          ¬(cy = u.cursor_y ∧ startX ≤ cx ∧ cx < startX + slice.length) →
          (exec (Op.labelAlign text width ai ao) u).buf.cellAt cx cy =
            u.buf.cellAt cx cy) := by
  intro u text width ai ao hd hwf w slice startX hw hslice hstart
  subst hw hslice hstart
  have hbuf := exec_labelAlign_buf u hd text width ai ao
  refine ⟨?_, ?_, ?_⟩
  · intro j hj hbx hby
    rw [hbuf,
      ScreenBuffer.cellAt_write_str _ (ScreenBuffer.blankRow_Wf hwf _ _ _),
      ScreenBuffer.blankRow_width, ScreenBuffer.blankRow_height,
      if_pos ⟨rfl, by omega, by omega, hbx, hby⟩,
      Nat.add_sub_cancel_left]
  · intro i hi hout hbx hby
    rw [hbuf,
      ScreenBuffer.cellAt_write_str _ (ScreenBuffer.blankRow_Wf hwf _ _ _),
      if_neg (by rintro ⟨_, h2, h3, _, _⟩; omega),
      ScreenBuffer.cellAt_blankRow _ hwf, if_pos ⟨rfl, by omega, by omega⟩]
  · intro cx cy h1 h2
    rw [hbuf,
      ScreenBuffer.cellAt_write_str _ (ScreenBuffer.blankRow_Wf hwf _ _ _),
      if_neg (by rintro ⟨e1, e2, e3, _, _⟩; exact h2 ⟨e1, e2, e3⟩),
      ScreenBuffer.cellAt_blankRow _ hwf, if_neg h1]

theorem claim_C5_witness :
    zUi.draw = true ∧ zUi.buf.Wf ∧
    (exec (Op.labelAlign "x".toList (some 5) .Right .Right) zUi).buf.cellAt (9 + 0)
      zUi.cursor_y = ("x".toList).getD 0 ' ' ∧
    (exec (Op.labelAlign "x".toList (some 5) .Right .Right) zUi).buf.cellAt (zUi.cursor_x + 0)
      zUi.cursor_y = ' ' ∧
    (exec (Op.labelAlign "x".toList (some 5) .Right .Right) zUi).buf.cellAt 5 0 =
      zUi.buf.cellAt 5 0 := by
  have h := claim_C5_label_align_blanks_cursor_amended zUi "x".toList (some 5) .Right .Right
    rfl (by decide) 5 "x".toList 9 rfl (by decide) (by decide)
  refine ⟨rfl, by decide, ?_, ?_, ?_⟩
  · exact h.1 0 (by decide) (by decide) (by decide)
  · exact h.2.1 0 (by decide) (by decide) (by decide) (by decide)
  · exact h.2.2 5 0 (by decide) (by decide)

theorem execCells_spacing_inner : ∀ (cs : Cells) (g : UiGridState),
    (execCells cs g).spacing_inner = g.spacing_inner
  | .nil, _ => rfl
  | .cons c cs, g => (execCells_spacing_inner cs _).trans rfl

/-- C2, counterexample: the grid footprint is not always the sum of the
measured (first-pass) column widths.  A single cell holding two consecutive
`StretchHint::Full` frames measures width 2 (budget is `Some 0` during the
measure pass), but during the draw pass the first frame stretches to the
cell's measured budget of 2, after which the second frame still occupies 1:
the cell's draw-pass footprint is 3, the final column vector becomes `[3]`,
and the footprint folded into the enclosing compositor is 3 — not the
measured sum 2 the claim prescribes for a closure that issues the same
single `cell()` call on both passes. -/
theorem claim_C2_counterexample :
    (demoRoot.gridMeasure 1 0 stretchFrameCells).max_col_width = [2] ∧
    (demoRoot.gridMeasure 1 0 stretchFrameCells).max_col_width.sum + 0 * (1 - 1) = 2 ∧
    (exec (Op.grid 1 0 stretchFrameCells) demoRoot).max_x = demoRoot.cursor_x + 3 ∧
    (exec (Op.grid 1 0 stretchFrameCells) demoRoot).max_x ≠
      demoRoot.cursor_x +
        ((demoRoot.gridMeasure 1 0 stretchFrameCells).max_col_width.sum + 0 * (1 - 1)) :=
  ⟨by decide, by decide, by decide, by decide⟩

/-- C2, amended: every `grid(cols, spacing, f)` call folds its footprint
into the enclosing compositor by exactly one `advance` of
`(sum of final per-column max widths + spacing*(cols-1),
  sum of final per-row max heights + spacing*(rows-1))`, where the final
vectors are the draw pass's — the measured vectors possibly enlarged by
budget-dependent cell content such as stretch frames (`rows ≥ 1` always
since the row vector is seeded `[0]`; the subtractions are the saturating
`Nat` ones).  For budget-independent content the final vectors equal the
measured ones: the spec's `grid(cols = 2, spacing = 1)` example with four
text cells of natural widths 3, 5, 2, 7 measures column widths `[3, 7]` and
row heights `[1, 1]` in both passes and folds footprint `(11, 3)`. -/
theorem claim_C2_grid_footprint_amended :
    (∀ (u : Ui) (cols spacing : Nat) (cells : Cells),
      exec (Op.grid cols spacing cells) u =
        (u.setBuf (u.gridDraw cols spacing cells).buf).advance
          ((u.gridDraw cols spacing cells).max_col_width.sum + spacing * (cols - 1))
          ((u.gridDraw cols spacing cells).max_row_height.sum +
            spacing * ((u.gridDraw cols spacing cells).max_row_height.length - 1))) ∧
    (demoRoot.gridMeasure 2 1 fourLabelCells).max_col_width = [3, 7] ∧
    (demoRoot.gridMeasure 2 1 fourLabelCells).max_row_height = [1, 1] ∧
    (demoRoot.gridDraw 2 1 fourLabelCells).max_col_width = [3, 7] ∧
    (demoRoot.gridDraw 2 1 fourLabelCells).max_row_height = [1, 1] ∧
    (exec (Op.grid 2 1 fourLabelCells) demoRoot).max_x = 11 ∧
    (exec (Op.grid 2 1 fourLabelCells) demoRoot).max_y = 3 := by
  refine ⟨?_, by decide, by decide, by decide, by decide, by decide, by decide⟩
  intro u cols spacing cells
  simp only [exec]
  unfold Ui.gridClose Ui.gridDraw Ui.gridMeasure Ui.gridSecond Ui.gridInit
  rw [execCells_spacing_inner]
